import Mathlib

/-!
Verification of the Containust container runtime (Rust workspace) against its
natural-language specification.  The relevant Rust modules are shallowly
embedded as executable Lean definitions:

* `crates/containust-compose/src/parser/lexer.rs`   — CTST tokenizer
* `crates/containust-compose/src/parser/mod.rs`     — recursive-descent parser
* `crates/containust-compose/src/parser/validator.rs` — static validator
* `crates/containust-compose/src/graph.rs`          — dependency graph
* `crates/containust-compose/src/resolver.rs`       — connection auto-wiring
* `crates/containust-runtime/src/engine.rs`         — memory-string parsing
* `crates/containust-runtime/src/state.rs`          — persistent state store
* `crates/containust-runtime/src/backend/vm/initramfs.rs` — cpio newc writer/reader
* `crates/containust-common/src/types.rs`           — container identifiers

Rust `&str` values are modelled as `List Char` (or Lean `String` where more
convenient); byte strings as `List Nat` with each element a byte value.
Machine integers are modelled as `Nat`/`Int` with explicit range checks where
the Rust code performs them.  Fallible Rust functions return `Except`.
A Rust function that can panic is modelled with an explicit outcome type
carrying a distinguished constructor for the panic.
-/

/-- Error taxonomy of `containust-common/src/error.rs`, restricted to the
constructors exercised by the embedded modules.  The `Io` payload of the
underlying OS error is not representable and is dropped; only the path tag
is kept. -/
inductive ContainustError where
  | Config (message : String)
  | NotFound (kind : String) (id : String)
  | Io (path : String)
  | Serialization (message : String)
deriving Repr, DecidableEq

/-- Decidable equality for `Except`, used to evaluate embedded functions on
concrete inputs. -/
instance {e a : Type} [DecidableEq e] [DecidableEq a] :
    DecidableEq (Except e a) := fun x y =>
  match x, y with
  | Except.ok v, Except.ok w =>
    if h : v = w then isTrue (by rw [h]) else isFalse (fun hc => h (by cases hc; rfl))
  | Except.error v, Except.error w =>
    if h : v = w then isTrue (by rw [h]) else isFalse (fun hc => h (by cases hc; rfl))
  | Except.ok _, Except.error _ => isFalse (fun hc => by cases hc)
  | Except.error _, Except.ok _ => isFalse (fun hc => by cases hc)

/-- Rust `char::is_whitespace` (the Unicode `White_Space` property), used by
`str::trim`. -/
def isRustWhitespace (c : Char) : Bool :=
  c = ' ' || c = '\t' || c = '\n' || c.val = 0x0B || c.val = 0x0C || c = '\r' ||
  c.val = 0x85 || c.val = 0xA0 || c.val = 0x1680 ||
  (0x2000 ≤ c.val && c.val ≤ 0x200A) ||
  c.val = 0x2028 || c.val = 0x2029 || c.val = 0x202F || c.val = 0x205F ||
  c.val = 0x3000

/-- Rust `str::trim`: strip leading and trailing whitespace. -/
def rustTrim (s : List Char) : List Char :=
  ((s.dropWhile isRustWhitespace).reverse.dropWhile isRustWhitespace).reverse

/-- Rust `str::strip_suffix`: `some` of the remaining text when `suf` is a
suffix of `s`, otherwise `none`. -/
def stripSuffix (suf s : List Char) : Option (List Char) :=
  if suf.isSuffixOf s then some (s.take (s.length - suf.length)) else none

/-- Numeric value of a run of ASCII decimal digits (most significant first). -/
def digitsVal (ds : List Char) : Nat :=
  ds.foldl (fun a c => a * 10 + (c.toNat - 48)) 0

/-- Rust `u64::from_str` (`str::parse::<u64>`): an optional leading `+`
followed by one or more ASCII digits whose value fits in 64 bits. -/
def parseU64 (s : List Char) : Option Nat :=
  let digits := if s.head? = some '+' then s.tail else s
  if digits.isEmpty then none
  else if digits.all (·.isDigit) then
    if digitsVal digits < 2 ^ 64 then some (digitsVal digits) else none
  else none

/-- `parse_memory` from `containust-runtime/src/engine.rs`: strip a known
unit suffix (checked in the order GiB, GB, MiB, MB, KiB, KB), parse the rest
as `u64`, and multiply by the unit (u64 arithmetic, hence the reduction
modulo `2 ^ 64`). -/
def parse_memory (s : List Char) : Option Nat :=
  let t := rustTrim s
  let p : List Char × Nat :=
    match stripSuffix "GiB".data t with
    | some n => (n, 1024 * 1024 * 1024)
    | none =>
      match stripSuffix "GB".data t with
      | some n => (n, 1000000000)
      | none =>
        match stripSuffix "MiB".data t with
        | some n => (n, 1024 * 1024)
        | none =>
          match stripSuffix "MB".data t with
          | some n => (n, 1000000)
          | none =>
            match stripSuffix "KiB".data t with
            | some n => (n, 1024)
            | none =>
              match stripSuffix "KB".data t with
              | some n => (n, 1000)
              | none => (t, 1)
  (parseU64 (rustTrim p.1)).map (fun n => n * p.2 % 2 ^ 64)

/-! ## CTST lexer (`containust-compose/src/parser/lexer.rs`) -/

/-- Tokens of the `.ctst` language (`Token` in `lexer.rs`).  Integers are
`i64` (`Int` with the lexer guaranteeing the non-negative `i64` range). -/
inductive Token where
  | importKw
  | asKw
  | componentKw
  | fromKw
  | connectKw
  | boolTrue
  | boolFalse
  | identifier (s : String)
  | stringLit (s : String)
  | integer (n : Int)
  | braceOpen
  | braceClose
  | bracketOpen
  | bracketClose
  | arrow
  | equals
  | comma
deriving Repr, DecidableEq

/-- Characters matched by nom `multispace1` (space, tab, carriage return,
line feed). -/
def isNomSpace (c : Char) : Bool :=
  c = ' ' || c = '\t' || c = '\r' || c = '\n'

/-- Characters consumed by nom `not_line_ending` inside a `//` comment. -/
def isNotLineEnding (c : Char) : Bool :=
  c ≠ '\n' && c ≠ '\r'

/-- `skip_trivia`: repeatedly discard whitespace runs and `//` line comments
(`many0(alt((ws, comment)))`).  Total: `many0` stops at the first
non-matching position.  Structured character-by-character (with a flag for
"inside a line comment") so the recursion is structural; a comment's
terminating newline is whitespace, so consuming it directly is
equivalent. -/
def skipTriviaGo : Bool → List Char → List Char
  | _, [] => []
  | true, c :: rest =>
    if isNotLineEnding c then skipTriviaGo true rest
    else skipTriviaGo false rest
  | false, '/' :: '/' :: rest2 => skipTriviaGo true rest2
  | false, c :: rest =>
    if isNomSpace c then skipTriviaGo false rest else c :: rest

/-- `skip_trivia` entry point. -/
def skipTrivia (s : List Char) : List Char :=
  skipTriviaGo false s

/-- Body of `string_literal` after the opening quote: collect characters,
interpreting the escapes `\n \t \\ \"` (an unknown escape keeps both
characters); `none` models a nom `Failure` on end of input before the
closing quote. -/
def stringBody : List Char → List Char → Option (String × List Char)
  | [], _ => none
  | '"' :: rest, acc => some (⟨acc.reverse⟩, rest)
  | ['\\'], _ => none
  | '\\' :: e :: rest2, acc =>
    if e = 'n' then stringBody rest2 ('\n' :: acc)
    else if e = 't' then stringBody rest2 ('\t' :: acc)
    else if e = '\\' then stringBody rest2 ('\\' :: acc)
    else if e = '"' then stringBody rest2 ('"' :: acc)
    else stringBody rest2 (e :: '\\' :: acc)
  | c :: rest, acc => stringBody rest (c :: acc)

/-- `integer_literal`: `digit1` followed by an `i64` parse; values above
`i64::MAX` fail the parse (a nom `Error`, so `alt` falls through). -/
def integerLit (s : List Char) : Option (Token × List Char) :=
  let digits := s.takeWhile (·.isDigit)
  if digits.isEmpty then none
  else if digitsVal digits < 2 ^ 63 then
    some (Token.integer (Int.ofNat (digitsVal digits)), s.drop digits.length)
  else none

/-- `is_ident_start`: ASCII letter or underscore. -/
def isIdentStart (c : Char) : Bool :=
  c.isAlpha || c = '_'

/-- `is_ident_continue`: ASCII alphanumeric, underscore or hyphen. -/
def isIdentContinue (c : Char) : Bool :=
  c.isAlphanum || c = '_' || c = '-'

/-- `identifier_or_keyword`: one identifier-start character, then
identifier-continue characters; keywords are matched case-sensitively. -/
def identKw (s : List Char) : Option (Token × List Char) :=
  match s with
  | [] => none
  | c :: rest =>
    if isIdentStart c then
      let cont := rest.takeWhile isIdentContinue
      let word : String := ⟨c :: cont⟩
      let remaining := rest.drop cont.length
      let tok :=
        if word = "IMPORT" then Token.importKw
        else if word = "AS" then Token.asKw
        else if word = "COMPONENT" then Token.componentKw
        else if word = "FROM" then Token.fromKw
        else if word = "CONNECT" then Token.connectKw
        else if word = "true" then Token.boolTrue
        else if word = "false" then Token.boolFalse
        else Token.identifier word
      some (tok, remaining)
    else none

/-- `symbol`: `->` first, then the single-character symbols. -/
def symbolTok (s : List Char) : Option (Token × List Char) :=
  match s with
  | '-' :: '>' :: rest => some (Token.arrow, rest)
  | '{' :: rest => some (Token.braceOpen, rest)
  | '}' :: rest => some (Token.braceClose, rest)
  | '[' :: rest => some (Token.bracketOpen, rest)
  | ']' :: rest => some (Token.bracketClose, rest)
  | '=' :: rest => some (Token.equals, rest)
  | ',' :: rest => some (Token.comma, rest)
  | _ => none

/-- `single_token`: `alt((string_literal, symbol, integer_literal,
identifier_or_keyword))`.  A leading quote commits to the string branch
(an unterminated string is a nom `Failure`, which aborts the `alt`); the
other branches cannot match a leading quote anyway. -/
def singleToken (s : List Char) : Option (Token × List Char) :=
  match s with
  | '"' :: rest => (stringBody rest []).map (fun r => (Token.stringLit r.1, r.2))
  | _ =>
    match symbolTok s with
    | some r => some r
    | none =>
      match integerLit s with
      | some r => some r
      | none => identKw s

/-- UTF-8 byte length of one character. -/
def utf8Len (c : Char) : Nat :=
  if c.val < 0x80 then 1
  else if c.val < 0x800 then 2
  else if c.val < 0x10000 then 3
  else 4

/-- UTF-8 byte length of a string (Rust `str::len`). -/
def utf8ByteLen (s : List Char) : Nat :=
  (s.map utf8Len).sum

/-- Whether byte index `i` is a character boundary of `s`
(Rust `str::is_char_boundary`); slicing `&s[..i]` panics when it is not. -/
def isCharBoundary (s : List Char) (i : Nat) : Bool :=
  if i = 0 then true
  else
    match s with
    | [] => false
    | c :: rest => if i < utf8Len c then false else isCharBoundary rest (i - utf8Len c)

/-- The characters of `s` up to byte index `i` (the slice `&s[..i]`),
meaningful when `i` is a character boundary. -/
def takeBytes (s : List Char) (i : Nat) : List Char :=
  if i = 0 then []
  else
    match s with
    | [] => []
    | c :: rest => if i < utf8Len c then [] else c :: takeBytes rest (i - utf8Len c)

/-- Outcome of running `tokenize`: a token vector, a `Config` error carrying
the offending input prefix (the nom error display appended to the real
message is not modelled), or a Rust panic. -/
inductive LexOutcome where
  | ok (tokens : List Token)
  | err (offending : List Char)
  | panicked
deriving Repr, DecidableEq

/-- `tokenize` from `lexer.rs`.  On a `single_token` failure the source
formats the message with the slice
`&remaining[..remaining.len().min(20)]`, which panics when that byte index
is not a character boundary of `remaining`; the panic is modelled
explicitly. -/
def tokenize (input : List Char) : LexOutcome :=
  go (input.length + 1) input []
where
  go (fuel : Nat) (remaining : List Char) (acc : List Token) : LexOutcome :=
    match fuel with
    | 0 => LexOutcome.ok acc.reverse
    | fuel + 1 =>
      let rest := skipTrivia remaining
      if rest.isEmpty then LexOutcome.ok acc.reverse
      else
        match singleToken rest with
        | some (tok, rest2) => go fuel rest2 (tok :: acc)
        | none =>
          let idx := min (utf8ByteLen rest) 20
          if isCharBoundary rest idx then LexOutcome.err (takeBytes rest idx)
          else LexOutcome.panicked

/-! ## CTST abstract syntax (`containust-compose/src/parser/ast.rs`) -/

/-- `HealthcheckDecl`: healthcheck configuration inside a component.
`retries` is `u32`. -/
structure HealthcheckDecl where
  command : List String
  interval : Option String
  timeout : Option String
  retries : Option Nat
  start_period : Option String
deriving Repr, DecidableEq

/-- `ComponentDecl`.  `port` and the elements of `ports` are `u16`;
`env` is a `BTreeMap<String, String>` modelled as its strictly key-sorted
association list (the order `iter()` yields). -/
structure ComponentDecl where
  name : String
  from_template : Option String
  image : Option String
  port : Option Nat
  ports : List Nat
  memory : Option String
  cpu : Option String
  env : List (String × String)
  volume : Option String
  volumes : List String
  command : List String
  readonly : Option Bool
  workdir : Option String
  user : Option String
  hostname : Option String
  restart : Option String
  network : Option String
  healthcheck : Option HealthcheckDecl
deriving Repr, DecidableEq

/-- `ComponentDecl::default()`. -/
def ComponentDecl.defaultDecl : ComponentDecl :=
  ⟨"", none, none, none, [], none, none, [], none, [], [], none, none, none,
   none, none, none, none⟩

/-- `ImportDecl`: source path plus optional alias.  The Rust field `alias`
is a Lean keyword, so it is named `aliasName` here. -/
structure ImportDecl where
  source : String
  aliasName : Option String
deriving Repr, DecidableEq

/-- `ConnectionDecl`.  The Rust fields are named `from` and `to`; `from` is
reserved in Lean, so they are named `fromName`/`toName` here. -/
structure ConnectionDecl where
  fromName : String
  toName : String
deriving Repr, DecidableEq

/-- `CompositionFile`: the three ordered declaration sequences. -/
structure CompositionFile where
  imports : List ImportDecl
  components : List ComponentDecl
  connections : List ConnectionDecl
deriving Repr, DecidableEq

/-- `CompositionFile::default()`. -/
def CompositionFile.defaultFile : CompositionFile := ⟨[], [], []⟩

/-- Lexicographic order on character lists: Rust `String` `Ord` is
lexicographic byte order, which on UTF-8 data coincides with lexicographic
code-point order. -/
def charListLt : List Char → List Char → Bool
  | [], [] => false
  | [], _ :: _ => true
  | _ :: _, [] => false
  | a :: as, b :: bs => if a < b then true else if b < a then false else charListLt as bs

/-- Rust `String` `Ord`. -/
def strLt (a b : String) : Bool :=
  charListLt a.data b.data

/-- `BTreeMap::insert` on the sorted-association-list model: keep strict key
order, replace the value on an existing key. -/
def btreeInsert (k v : String) : List (String × String) → List (String × String)
  | [] => [(k, v)]
  | (k2, v2) :: rest =>
    if strLt k k2 then (k, v) :: (k2, v2) :: rest
    else if k = k2 then (k, v) :: rest
    else (k2, v2) :: btreeInsert k v rest

/-! ## CTST parser (`containust-compose/src/parser/mod.rs`)

The Rust parser walks a `TokenCursor`; each embedded function takes the
remaining token list and returns the parsed value together with the tokens
left after it. -/

/-- Rust `derive(Debug)` rendering of a token, as interpolated into parse
error messages. -/
def tokenDebug : Token → String
  | Token.importKw => "Import"
  | Token.asKw => "As"
  | Token.componentKw => "Component"
  | Token.fromKw => "From"
  | Token.connectKw => "Connect"
  | Token.boolTrue => "True"
  | Token.boolFalse => "False"
  | Token.identifier s => "Identifier(\"" ++ s ++ "\")"
  | Token.stringLit s => "StringLiteral(\"" ++ s ++ "\")"
  | Token.integer n => "Integer(" ++ toString n ++ ")"
  | Token.braceOpen => "BraceOpen"
  | Token.braceClose => "BraceClose"
  | Token.bracketOpen => "BracketOpen"
  | Token.bracketClose => "BracketClose"
  | Token.arrow => "Arrow"
  | Token.equals => "Equals"
  | Token.comma => "Comma"

/-- Rust `Debug` rendering of `Option<&Token>` (the result of `advance`). -/
def optTokenDebug : Option Token → String
  | none => "None"
  | some t => "Some(" ++ tokenDebug t ++ ")"

/-- `parse_err`: a `Config` error. -/
def parse_err (message : String) : ContainustError :=
  ContainustError.Config message

/-- `TokenCursor::expect_identifier`. -/
def expectIdentifier : List Token → Except ContainustError (String × List Token)
  | Token.identifier s :: rest => .ok (s, rest)
  | t :: _ =>
    .error (parse_err ("expected identifier, got " ++ optTokenDebug (some t)))
  | [] => .error (parse_err ("expected identifier, got " ++ optTokenDebug none))

/-- `TokenCursor::expect_token`. -/
def expectToken (expected : Token) : List Token → Except ContainustError (List Token)
  | t :: rest =>
    if t = expected then .ok rest
    else
      .error (parse_err
        ("expected " ++ tokenDebug expected ++ ", got " ++ optTokenDebug (some t)))
  | [] =>
    .error (parse_err
      ("expected " ++ tokenDebug expected ++ ", got " ++ optTokenDebug none))

/-- `TokenCursor::expect_string`. -/
def expectString : List Token → Except ContainustError (String × List Token)
  | Token.stringLit s :: rest => .ok (s, rest)
  | t :: _ =>
    .error (parse_err ("expected string literal, got " ++ optTokenDebug (some t)))
  | [] => .error (parse_err ("expected string literal, got " ++ optTokenDebug none))

/-- `TokenCursor::expect_integer`. -/
def expectInteger : List Token → Except ContainustError (Int × List Token)
  | Token.integer n :: rest => .ok (n, rest)
  | t :: _ =>
    .error (parse_err ("expected integer, got " ++ optTokenDebug (some t)))
  | [] => .error (parse_err ("expected integer, got " ++ optTokenDebug none))

/-- `skip_optional_comma`. -/
def skipOptionalComma : List Token → List Token
  | Token.comma :: rest => rest
  | ts => ts

/-- `parse_bool`. -/
def parseBool : List Token → Except ContainustError (Bool × List Token)
  | Token.boolTrue :: rest => .ok (true, rest)
  | Token.boolFalse :: rest => .ok (false, rest)
  | t :: _ =>
    .error (parse_err ("expected true or false, got " ++ optTokenDebug (some t)))
  | [] => .error (parse_err ("expected true or false, got " ++ optTokenDebug none))

/-- Loop body of `parse_string_list` (fuel bounds the iteration count; every
iteration consumes at least one token, so fuel `length + 1` never runs
out). -/
def parseStringListLoop (fuel : Nat) (acc : List String) (ts : List Token) :
    Except ContainustError (List String × List Token) :=
  match fuel with
  | 0 => .error (parse_err "unexpected end of input inside list")
  | fuel + 1 =>
    match ts with
    | Token.bracketClose :: rest => .ok (acc.reverse, rest)
    | [] => .error (parse_err "unexpected end of input inside list")
    | ts => do
      let (s, ts2) ← expectString ts
      parseStringListLoop fuel (s :: acc) (skipOptionalComma ts2)

/-- `parse_string_list`. -/
def parseStringList (ts : List Token) :
    Except ContainustError (List String × List Token) := do
  let ts ← expectToken Token.bracketOpen ts
  parseStringListLoop (ts.length + 1) [] ts

/-- Loop body of `parse_integer_list` with its `u16` range check. -/
def parseIntegerListLoop (fuel : Nat) (acc : List Nat) (ts : List Token) :
    Except ContainustError (List Nat × List Token) :=
  match fuel with
  | 0 => .error (parse_err "unexpected end of input inside list")
  | fuel + 1 =>
    match ts with
    | Token.bracketClose :: rest => .ok (acc.reverse, rest)
    | [] => .error (parse_err "unexpected end of input inside list")
    | ts => do
      let (v, ts2) ← expectInteger ts
      if 0 ≤ v ∧ v < 65536 then
        parseIntegerListLoop fuel (v.toNat :: acc) (skipOptionalComma ts2)
      else
        .error (parse_err ("port value out of range: " ++ toString v))

/-- `parse_integer_list`. -/
def parseIntegerList (ts : List Token) :
    Except ContainustError (List Nat × List Token) := do
  let ts ← expectToken Token.bracketOpen ts
  parseIntegerListLoop (ts.length + 1) [] ts

/-- Loop body of `parse_env_map`. -/
def parseEnvMapLoop (fuel : Nat) (acc : List (String × String)) (ts : List Token) :
    Except ContainustError (List (String × String) × List Token) :=
  match fuel with
  | 0 => .error (parse_err "unexpected end of input inside env block")
  | fuel + 1 =>
    match ts with
    | Token.braceClose :: rest => .ok (acc, rest)
    | [] => .error (parse_err "unexpected end of input inside env block")
    | ts => do
      let (k, ts2) ← expectIdentifier ts
      let ts3 ← expectToken Token.equals ts2
      let (v, ts4) ← expectString ts3
      parseEnvMapLoop fuel (btreeInsert k v acc) (skipOptionalComma ts4)

/-- `parse_env_map`. -/
def parseEnvMap (ts : List Token) :
    Except ContainustError (List (String × String) × List Token) := do
  let ts ← expectToken Token.braceOpen ts
  parseEnvMapLoop (ts.length + 1) [] ts

/-- Loop body of `parse_healthcheck` with the `u32` range check on
`retries`. -/
def parseHealthcheckLoop (fuel : Nat) (hc : HealthcheckDecl) (ts : List Token) :
    Except ContainustError (HealthcheckDecl × List Token) :=
  match fuel with
  | 0 => .error (parse_err "unexpected end of input inside healthcheck block")
  | fuel + 1 =>
    match ts with
    | Token.braceClose :: rest => .ok (hc, rest)
    | [] => .error (parse_err "unexpected end of input inside healthcheck block")
    | ts => do
      let (key, ts2) ← expectIdentifier ts
      let ts3 ← expectToken Token.equals ts2
      if key = "command" then do
        let (cmd, ts4) ← parseStringList ts3
        parseHealthcheckLoop fuel { hc with command := cmd } (skipOptionalComma ts4)
      else if key = "interval" then do
        let (s, ts4) ← expectString ts3
        parseHealthcheckLoop fuel { hc with interval := some s } (skipOptionalComma ts4)
      else if key = "timeout" then do
        let (s, ts4) ← expectString ts3
        parseHealthcheckLoop fuel { hc with timeout := some s } (skipOptionalComma ts4)
      else if key = "retries" then do
        let (v, ts4) ← expectInteger ts3
        if 0 ≤ v ∧ v < 4294967296 then
          parseHealthcheckLoop fuel { hc with retries := some v.toNat }
            (skipOptionalComma ts4)
        else
          .error (parse_err ("retries value out of range: " ++ toString v))
      else if key = "start_period" then do
        let (s, ts4) ← expectString ts3
        parseHealthcheckLoop fuel { hc with start_period := some s }
          (skipOptionalComma ts4)
      else
        .error (parse_err ("unknown healthcheck property: " ++ key))

/-- `parse_healthcheck`. -/
def parseHealthcheck (ts : List Token) :
    Except ContainustError (HealthcheckDecl × List Token) := do
  let ts ← expectToken Token.braceOpen ts
  parseHealthcheckLoop (ts.length + 1) ⟨[], none, none, none, none⟩ ts

/-- `parse_property`: one `key = value` assignment into the component under
construction; `port` is `u16` range-checked, unknown keys are fatal. -/
def parseProperty (ts : List Token) (comp : ComponentDecl) :
    Except ContainustError (ComponentDecl × List Token) := do
  let (key, ts2) ← expectIdentifier ts
  let ts3 ← expectToken Token.equals ts2
  if key = "image" then do
    let (s, ts4) ← expectString ts3
    .ok ({ comp with image := some s }, ts4)
  else if key = "port" then do
    let (v, ts4) ← expectInteger ts3
    if 0 ≤ v ∧ v < 65536 then
      .ok ({ comp with port := some v.toNat }, ts4)
    else
      .error (parse_err ("port value out of range: " ++ toString v))
  else if key = "ports" then do
    let (l, ts4) ← parseIntegerList ts3
    .ok ({ comp with ports := l }, ts4)
  else if key = "memory" then do
    let (s, ts4) ← expectString ts3
    .ok ({ comp with memory := some s }, ts4)
  else if key = "cpu" then do
    let (s, ts4) ← expectString ts3
    .ok ({ comp with cpu := some s }, ts4)
  else if key = "env" then do
    let (m, ts4) ← parseEnvMap ts3
    .ok ({ comp with env := m }, ts4)
  else if key = "volume" then do
    let (s, ts4) ← expectString ts3
    .ok ({ comp with volume := some s }, ts4)
  else if key = "volumes" then do
    let (l, ts4) ← parseStringList ts3
    .ok ({ comp with volumes := l }, ts4)
  else if key = "command" then do
    let (l, ts4) ← parseStringList ts3
    .ok ({ comp with command := l }, ts4)
  else if key = "readonly" then do
    let (b, ts4) ← parseBool ts3
    .ok ({ comp with readonly := some b }, ts4)
  else if key = "workdir" then do
    let (s, ts4) ← expectString ts3
    .ok ({ comp with workdir := some s }, ts4)
  else if key = "user" then do
    let (s, ts4) ← expectString ts3
    .ok ({ comp with user := some s }, ts4)
  else if key = "hostname" then do
    let (s, ts4) ← expectString ts3
    .ok ({ comp with hostname := some s }, ts4)
  else if key = "restart" then do
    let (s, ts4) ← expectString ts3
    .ok ({ comp with restart := some s }, ts4)
  else if key = "network" then do
    let (s, ts4) ← expectString ts3
    .ok ({ comp with network := some s }, ts4)
  else if key = "healthcheck" then do
    let (hc, ts4) ← parseHealthcheck ts3
    .ok ({ comp with healthcheck := some hc }, ts4)
  else
    .error (parse_err ("unknown component property: " ++ key))

/-- Property loop of `parse_component`. -/
def parsePropsLoop (fuel : Nat) (comp : ComponentDecl) (ts : List Token) :
    Except ContainustError (ComponentDecl × List Token) :=
  match fuel with
  | 0 => .error (parse_err "unexpected end of input inside COMPONENT block")
  | fuel + 1 =>
    match ts with
    | Token.braceClose :: _ => .ok (comp, ts)
    | [] => .error (parse_err "unexpected end of input inside COMPONENT block")
    | ts => do
      let (comp2, ts2) ← parseProperty ts comp
      parsePropsLoop fuel comp2 ts2

/-- `parse_component`. -/
def parseComponent (ts : List Token) :
    Except ContainustError (ComponentDecl × List Token) := do
  let ts ← expectToken Token.componentKw ts
  let (name, ts) ← expectIdentifier ts
  let (from_template, ts) ←
    match ts with
    | Token.fromKw :: rest => do
      let (t, ts2) ← expectIdentifier rest
      pure (some t, ts2)
    | ts => pure ((none : Option String), ts)
  let ts ← expectToken Token.braceOpen ts
  let (comp, ts) ← parsePropsLoop (ts.length + 1)
    { ComponentDecl.defaultDecl with name := name, from_template := from_template } ts
  let ts ← expectToken Token.braceClose ts
  .ok (comp, ts)

/-- `parse_import`. -/
def parseImport (ts : List Token) :
    Except ContainustError (ImportDecl × List Token) := do
  let ts ← expectToken Token.importKw ts
  let (source, ts) ← expectString ts
  match ts with
  | Token.asKw :: rest => do
    let (a, ts2) ← expectIdentifier rest
    .ok (⟨source, some a⟩, ts2)
  | ts => .ok (⟨source, none⟩, ts)

/-- `parse_connection`. -/
def parseConnection (ts : List Token) :
    Except ContainustError (ConnectionDecl × List Token) := do
  let ts ← expectToken Token.connectKw ts
  let (f, ts) ← expectIdentifier ts
  let ts ← expectToken Token.arrow ts
  let (t, ts) ← expectIdentifier ts
  .ok (⟨f, t⟩, ts)

/-- Top-level loop of `parse_file`: dispatch on the leading token until the
cursor is exhausted. -/
def parseFileLoop (fuel : Nat) (file : CompositionFile) (ts : List Token) :
    Except ContainustError CompositionFile :=
  match fuel with
  | 0 => .error (parse_err "expected IMPORT, COMPONENT, or CONNECT at top level")
  | fuel + 1 =>
    match ts with
    | [] => .ok file
    | Token.importKw :: _ => do
      let (i, ts2) ← parseImport ts
      parseFileLoop fuel { file with imports := file.imports ++ [i] } ts2
    | Token.componentKw :: _ => do
      let (c, ts2) ← parseComponent ts
      parseFileLoop fuel { file with components := file.components ++ [c] } ts2
    | Token.connectKw :: _ => do
      let (c, ts2) ← parseConnection ts
      parseFileLoop fuel { file with connections := file.connections ++ [c] } ts2
    | t :: _ =>
      .error (parse_err
        ("expected IMPORT, COMPONENT, or CONNECT at top level, got " ++ tokenDebug t))

/-- `parse_file`. -/
def parseFile (ts : List Token) : Except ContainustError CompositionFile :=
  parseFileLoop (ts.length + 1) CompositionFile.defaultFile ts

/-! ## CTST validator (`containust-compose/src/parser/validator.rs`) -/

/-- `check_duplicate_components`: walk the components, tracking seen names
(the `HashSet` is modelled as the list of names inserted so far). -/
def check_duplicate_components (comps : List ComponentDecl) (seen : List String) :
    Except ContainustError Unit :=
  match comps with
  | [] => .ok ()
  | comp :: rest =>
    if comp.name ∈ seen then
      .error (ContainustError.Config
        ("duplicate component name: \"" ++ comp.name ++ "\""))
    else
      check_duplicate_components rest (comp.name :: seen)

/-- `check_connection_references`: every `CONNECT` endpoint must name a
declared component. -/
def check_connection_references (names : List String) :
    List ConnectionDecl → Except ContainustError Unit
  | [] => .ok ()
  | conn :: rest =>
    if conn.fromName ∉ names then
      .error (ContainustError.NotFound "component"
        ("CONNECT source \"" ++ conn.fromName ++ "\" is not defined"))
    else if conn.toName ∉ names then
      .error (ContainustError.NotFound "component"
        ("CONNECT target \"" ++ conn.toName ++ "\" is not defined"))
    else
      check_connection_references names rest

/-- `check_image_required`: a component without a `FROM` template must
declare an `image`. -/
def check_image_required : List ComponentDecl → Except ContainustError Unit
  | [] => .ok ()
  | comp :: rest =>
    if comp.from_template = none ∧ comp.image = none then
      .error (ContainustError.Config
        ("component \"" ++ comp.name ++ "\" has no FROM template and no image property"))
    else
      check_image_required rest

/-- `validate` from `validator.rs`: duplicate names, then connection
references, then required images. -/
def validate (file : CompositionFile) : Except ContainustError Unit := do
  check_duplicate_components file.components []
  check_connection_references (file.components.map (·.name)) file.connections
  check_image_required file.components

/-- Outcome of a Rust function that may also panic. -/
inductive RustOutcome (α : Type) where
  | ok (val : α)
  | err (e : ContainustError)
  | panicked
deriving Repr, DecidableEq

/-- The `Config` message built by `tokenize` on a lexer error (the appended
nom error display is not modelled). -/
def lexErrMessage (offending : List Char) : String :=
  "unexpected character at: \"" ++ String.mk offending ++ "\""

/-- `parse_ctst` from `parser/mod.rs`: tokenize, parse, validate.  The
lexer's possible panic propagates. -/
def parse_ctst (input : List Char) : RustOutcome CompositionFile :=
  match tokenize input with
  | LexOutcome.panicked => RustOutcome.panicked
  | LexOutcome.err off => RustOutcome.err (ContainustError.Config (lexErrMessage off))
  | LexOutcome.ok toks =>
    match parseFile toks with
    | .error e => RustOutcome.err e
    | .ok file =>
      match validate file with
      | .error e => RustOutcome.err e
      | .ok () => RustOutcome.ok file

/-! ## Connection resolver (`containust-compose/src/resolver.rs`) -/

/-- `ResolvedComponent`: a component name with its resolved environment. -/
structure ResolvedComponent where
  name : String
  env : List (String × String)
deriving Repr, DecidableEq

/-- Rust `str::to_uppercase` modelled on ASCII letters (identity on other
characters; component names come from the lexer, which only admits ASCII
identifiers). -/
def toUppercase (s : String) : String :=
  ⟨s.data.map Char.toUpper⟩

/-- The environment entries `inject_connection_env` pushes for one
connection: the target's `_HOST` entry, and a `_PORT` entry when the
target's rendered port string is non-empty (`u16` rendering is never
empty, so exactly when the target declares a port). -/
def connectionEntries (conn : ConnectionDecl) (target : ComponentDecl) :
    List (String × String) :=
  let targetUpper := toUppercase conn.toName
  let portStr := match target.port with
    | none => ""
    | some p => toString p
  (targetUpper ++ "_HOST", conn.toName) ::
    (if portStr.isEmpty then [] else [(targetUpper ++ "_PORT", portStr)])

/-- `inject_connection_env`: append the connection entries to the first
resolved record whose name equals the connection source (`iter_mut().find`);
no matching source leaves the list unchanged. -/
def inject_connection_env (resolved : List ResolvedComponent)
    (conn : ConnectionDecl) (target : ComponentDecl) : List ResolvedComponent :=
  match resolved with
  | [] => []
  | r :: rest =>
    if r.name = conn.fromName then
      { r with env := r.env ++ connectionEntries conn target } :: rest
    else
      r :: inject_connection_env rest conn target

/-- The body of the connection loop in `resolve_connections`: look up the
target component (`find` on the declaration list); inject its entries when
it exists and skip the connection otherwise. -/
def resolveStep (file : CompositionFile) (resolved : List ResolvedComponent)
    (conn : ConnectionDecl) : List ResolvedComponent :=
  match file.components.find? (fun c => c.name = conn.toName) with
  | some target => inject_connection_env resolved conn target
  | none => resolved

/-- `resolve_connections`: start from each component's own environment, then
fold the connections in order through `resolveStep`. -/
def resolve_connections (file : CompositionFile) :
    Except ContainustError (List ResolvedComponent) :=
  let initial := file.components.map (fun c => ResolvedComponent.mk c.name c.env)
  .ok (file.connections.foldl (resolveStep file) initial)

/-! ## Dependency graph (`containust-compose/src/graph.rs`) -/

/-- `DependencyGraph`: a `petgraph::Graph<String, ()>` modelled as the node
weight list (a `NodeIndex` is a position in it) and the edge list in
insertion order. -/
structure DependencyGraph where
  nodes : List String
  edges : List (Nat × Nat)
deriving Repr, DecidableEq

/-- `DependencyGraph::new`. -/
def DependencyGraph.new : DependencyGraph := ⟨[], []⟩

/-- `DependencyGraph::add_component`: append a node, returning its index. -/
def DependencyGraph.add_component (g : DependencyGraph) (name : String) :
    DependencyGraph × Nat :=
  (⟨g.nodes ++ [name], g.edges⟩, g.nodes.length)

/-- `DependencyGraph::add_dependency (dependent, dependency)`: the edge
points from the dependency to the dependent so that topological order
yields dependencies first. -/
def DependencyGraph.add_dependency (g : DependencyGraph)
    (dependent dependency : Nat) : DependencyGraph :=
  ⟨g.nodes, g.edges ++ [(dependency, dependent)]⟩

/-- Whether node `v` has an incoming edge from some node still in
`remaining`. -/
def hasIncoming (edges : List (Nat × Nat)) (remaining : List Nat) (v : Nat) : Bool :=
  edges.any (fun e => e.2 = v && remaining.contains e.1)

/-- Modelled from the spec: `petgraph::algo::toposort` (the petgraph crate
is not part of this repository).  Its contract — an ordering of all nodes
in which every edge source precedes its target, or an error exactly when
the graph is cyclic — is realised by Kahn's algorithm: repeatedly emit a
node of the remaining set with no incoming edge from the remaining set;
if none exists while nodes remain, the graph is cyclic. -/
def kahnGo (edges : List (Nat × Nat)) : Nat → List Nat →
    Except ContainustError (List Nat)
  | _, [] => .ok []
  | 0, _ :: _ => .ok []
  | fuel + 1, remaining =>
    match remaining.find? (fun v => !hasIncoming edges remaining v) with
    | some v =>
      match kahnGo edges fuel (remaining.erase v) with
      | .ok rest => .ok (v :: rest)
      | .error e => .error e
    | none =>
      .error (ContainustError.Config "cyclic dependency detected in component graph")

/-- Kahn's algorithm entry point: the fuel equals the node count and drops
by exactly one with every erased node, so the zero-fuel branch is reached
only on the empty remainder. -/
def kahn (edges : List (Nat × Nat)) (remaining : List Nat) :
    Except ContainustError (List Nat) :=
  kahnGo edges remaining.length remaining

/-- `DependencyGraph::resolve_order`: topological sort, then map node
indices back to names (`filter_map(node_weight)`). -/
def DependencyGraph.resolve_order (g : DependencyGraph) :
    Except ContainustError (List String) :=
  match kahn g.edges (List.range g.nodes.length) with
  | .ok indices => .ok (indices.filterMap (fun i => g.nodes[i]?))
  | .error e => .error e

/-! ## Persistent state (`containust-runtime/src/state.rs`)

`save_state` serialises a `StateFile` with `serde_json::to_string_pretty`
and writes it; `load_state` reads the file back and parses it with
`serde_json::from_str`.  The file system and the JSON text layer
(printing and reparsing a JSON value, done by the external serde_json
crate) are the identity between `save_state` and `load_state`; the
embeddings below capture the serde-derived conversion between the state
structures and the JSON value tree, which is where the repository-defined
shape of the data lives. -/

/-- A JSON value (`serde_json::Value`, restricted to the shapes the state
file uses: numbers appearing in it are unsigned integers). -/
inductive Json where
  | null
  | bool (b : Bool)
  | num (n : Nat)
  | str (s : String)
  | arr (elems : List Json)
  | obj (fields : List (String × Json))
deriving Repr

/-- `ContainerState` from `containust-common/src/types.rs`. -/
inductive ContainerState where
  | Created
  | Running
  | Stopped
  | Failed
deriving Repr, DecidableEq

/-- `StateEntry` from `state.rs`.  `id` is a `ContainerId` newtype over
`String`; `pid` is `Option<u32>`. -/
structure StateEntry where
  id : String
  name : String
  state : ContainerState
  pid : Option Nat
  image : String
  rootfs_path : Option String
  log_path : Option String
  created_at : String
deriving Repr, DecidableEq

/-- `StateFile`: the tracked container list. -/
structure StateFile where
  containers : List StateEntry
deriving Repr, DecidableEq

/-- Serde serialisation of `ContainerState` (derived: unit variants become
their name as a JSON string). -/
def encodeContainerState : ContainerState → Json
  | ContainerState.Created => Json.str "Created"
  | ContainerState.Running => Json.str "Running"
  | ContainerState.Stopped => Json.str "Stopped"
  | ContainerState.Failed => Json.str "Failed"

/-- Serde deserialisation of `ContainerState`. -/
def decodeContainerState : Json → Except String ContainerState
  | Json.str "Created" => .ok ContainerState.Created
  | Json.str "Running" => .ok ContainerState.Running
  | Json.str "Stopped" => .ok ContainerState.Stopped
  | Json.str "Failed" => .ok ContainerState.Failed
  | _ => .error "invalid ContainerState"

/-- Serde serialisation of `Option<T>` (derived: `None` is `null`). -/
def encodeOpt (f : α → Json) : Option α → Json
  | none => Json.null
  | some a => f a

/-- Serde serialisation of a `StateEntry` (field order as declared;
`ContainerId` is a newtype and serialises as its inner string). -/
def encodeStateEntry (e : StateEntry) : Json :=
  Json.obj
    [("id", Json.str e.id),
     ("name", Json.str e.name),
     ("state", encodeContainerState e.state),
     ("pid", encodeOpt Json.num e.pid),
     ("image", Json.str e.image),
     ("rootfs_path", encodeOpt Json.str e.rootfs_path),
     ("log_path", encodeOpt Json.str e.log_path),
     ("created_at", Json.str e.created_at)]

/-- Serde serialisation of a `StateFile`. -/
def encodeStateFile (s : StateFile) : Json :=
  Json.obj [("containers", Json.arr (s.containers.map encodeStateEntry))]

/-- Field lookup in a serde map (first occurrence). -/
def getField (fields : List (String × Json)) (name : String) : Except String Json :=
  match fields.find? (fun f => f.1 = name) with
  | some f => .ok f.2
  | none => .error ("missing field " ++ name)

/-- Serde deserialisation of a JSON string. -/
def decodeStr : Json → Except String String
  | Json.str s => .ok s
  | _ => .error "expected string"

/-- Serde deserialisation of `Option<String>`. -/
def decodeOptStr : Json → Except String (Option String)
  | Json.null => .ok none
  | Json.str s => .ok (some s)
  | _ => .error "expected string or null"

/-- Serde deserialisation of `Option<u32>` (the value must fit in 32
bits). -/
def decodeOptU32 : Json → Except String (Option Nat)
  | Json.null => .ok none
  | Json.num n => if n < 4294967296 then .ok (some n) else .error "u32 out of range"
  | _ => .error "expected number or null"

/-- Serde deserialisation of a `StateEntry`. -/
def decodeStateEntry (j : Json) : Except String StateEntry :=
  match j with
  | Json.obj fields => do
    let id ← getField fields "id" >>= decodeStr
    let name ← getField fields "name" >>= decodeStr
    let state ← getField fields "state" >>= decodeContainerState
    let pid ← getField fields "pid" >>= decodeOptU32
    let image ← getField fields "image" >>= decodeStr
    let rootfs_path ← getField fields "rootfs_path" >>= decodeOptStr
    let log_path ← getField fields "log_path" >>= decodeOptStr
    let created_at ← getField fields "created_at" >>= decodeStr
    .ok ⟨id, name, state, pid, image, rootfs_path, log_path, created_at⟩
  | _ => .error "expected object"

/-- Element-wise deserialisation of the entry array (first error wins, as
in serde's `Vec` deserialisation). -/
def decodeEntries : List Json → Except String (List StateEntry)
  | [] => .ok []
  | j :: rest => do
    let e ← decodeStateEntry j
    let es ← decodeEntries rest
    .ok (e :: es)

/-- Serde deserialisation of a `StateFile`. -/
def decodeStateFile (j : Json) : Except String StateFile :=
  match j with
  | Json.obj fields => do
    let cs ← getField fields "containers"
    match cs with
    | Json.arr elems => do
      let entries ← decodeEntries elems
      .ok ⟨entries⟩
    | _ => .error "expected array"
  | _ => .error "expected object"

/-- `save_state` up to the JSON text boundary: the JSON value written. -/
def save_state (s : StateFile) : Json :=
  encodeStateFile s

/-- `load_state` of an existing file, from the JSON value boundary
(`Serialization` wraps a serde message). -/
def load_state (j : Json) : Except ContainustError StateFile :=
  match decodeStateFile j with
  | .ok s => .ok s
  | .error m => .error (ContainustError.Serialization m)

/-! ## Container identifiers (`containust-common/src/types.rs`)

`ContainerId::generate` returns `uuid::Uuid::new_v4().to_string()`.  The
uuid crate (external to this repository) builds a version-4 UUID from 16
random bytes by fixing the version nibble of byte 6 to `4` and the top two
bits of byte 8 to `10`, and renders it as lowercase hex in the hyphenated
`8-4-4-4-12` format. -/

/-- Lowercase hex digit for a value below 16. -/
def hexDigitLower (n : Nat) : Char :=
  if n < 10 then Char.ofNat (48 + n) else Char.ofNat (87 + n)

/-- Two lowercase hex digits of a byte. -/
def hexByte (b : Nat) : List Char :=
  [hexDigitLower (b / 16 % 16), hexDigitLower (b % 16)]

/-- `uuid::Uuid::new_v4` followed by `to_string`, as a function of the 16
random bytes: byte 6 becomes `(b6 & 0x0f) | 0x40`, byte 8 becomes
`(b8 & 0x3f) | 0x80`, and the bytes are rendered in the hyphenated
lowercase-hex UUID format. -/
def ContainerId.generate (b0 b1 b2 b3 b4 b5 b6 b7 b8 b9 b10 b11 b12 b13 b14 b15 : Nat) :
    List Char :=
  let v6 := b6 % 16 + 64
  let v8 := b8 % 64 + 128
  hexByte b0 ++ hexByte b1 ++ hexByte b2 ++ hexByte b3 ++ ['-'] ++
  hexByte b4 ++ hexByte b5 ++ ['-'] ++
  hexByte v6 ++ hexByte b7 ++ ['-'] ++
  hexByte v8 ++ hexByte b9 ++ ['-'] ++
  hexByte b10 ++ hexByte b11 ++ hexByte b12 ++ hexByte b13 ++ hexByte b14 ++ hexByte b15

/-! ## Cpio newc archive (`containust-runtime/src/backend/vm/initramfs.rs`)

`CpioWriter` writes entries into a byte stream (the gzip layer wrapping it
is external and inverse to itself); `CpioReader` parses entries back out.
Byte strings are `List Nat`.  An entry name is a Rust `&str`, modelled by
its UTF-8 bytes; on the read side `String::from_utf8_lossy` is the
identity on valid UTF-8 input, so it is modelled as the identity at the
byte level. -/

/-- Uppercase hex rendering of `n` (Rust `{:X}`; a single `0` for zero). -/
def toHexUpperGo : Nat → Nat → List Char
  | 0, _ => []
  | fuel + 1, n =>
    if n = 0 then []
    else
      toHexUpperGo fuel (n / 16) ++
        [if n % 16 < 10 then Char.ofNat (48 + n % 16) else Char.ofNat (55 + n % 16)]

/-- Uppercase hex rendering of `n` (Rust `{:X}`; a single `0` for zero).
Fuel `n` suffices since the recursion divides by 16. -/
def toHexUpper (n : Nat) : List Char :=
  if n = 0 then ['0'] else toHexUpperGo n n

/-- Rust `{:08X}`: zero-pad the hex rendering to at least eight digits. -/
def toHex8 (n : Nat) : List Char :=
  List.replicate (8 - (toHexUpper n).length) '0' ++ toHexUpper n

/-- The 110-character newc header: the magic `070701` followed by thirteen
8-hex-digit fields (inode, mode, uid, gid, nlink, mtime, filesize,
devmajor, devminor, rdevmajor, rdevminor, namesize, check); the writer
zeroes every field it does not use. -/
def cpioHeader (ino mode filesize namesize : Nat) : List Char :=
  "070701".data ++
  toHex8 ino ++ toHex8 mode ++ toHex8 0 ++ toHex8 0 ++
  toHex8 1 ++ toHex8 0 ++ toHex8 filesize ++ toHex8 0 ++
  toHex8 0 ++ toHex8 0 ++ toHex8 0 ++ toHex8 namesize ++
  toHex8 0

/-- Padding needed to reach the next 4-byte boundary from `pos`. -/
def pad4 (pos : Nat) : Nat :=
  (4 - pos % 4) % 4

/-- One archive entry as the round-trip sees it. -/
structure CpioEntry where
  name : List Nat
  mode : Nat
  data : List Nat
deriving Repr, DecidableEq

/-- `CpioWriter` state: emitted bytes, inode counter (`u32`, starting at
300000), archive position. -/
structure CpioWriterState where
  out : List Nat
  ino : Nat
  pos : Nat
deriving Repr, DecidableEq

/-- `CpioWriter::new`. -/
def CpioWriterState.new : CpioWriterState := ⟨[], 300000, 0⟩

/-- `raw_write`. -/
def rawWrite (st : CpioWriterState) (buf : List Nat) : CpioWriterState :=
  ⟨st.out ++ buf, st.ino, st.pos + buf.length⟩

/-- `align4`: write zero padding up to the next 4-byte archive position. -/
def alignWrite (st : CpioWriterState) : CpioWriterState :=
  rawWrite st (List.replicate (pad4 st.pos) 0)

/-- `CpioWriter::write_entry`: bump the inode, then header, NUL-terminated
name, padding, data, padding. -/
def write_entry (st : CpioWriterState) (name : List Nat) (mode : Nat)
    (data : List Nat) : CpioWriterState :=
  let st := { st with ino := (st.ino + 1) % 4294967296 }
  let nameNul := name ++ [0]
  let header := (cpioHeader st.ino mode data.length nameNul.length).map Char.toNat
  alignWrite (rawWrite (alignWrite (rawWrite (rawWrite st header) nameNul)) data)

/-- The trailer's name, as bytes. -/
def trailerName : List Nat :=
  "TRAILER!!!".data.map Char.toNat

/-- `CpioWriter::write_trailer`. -/
def write_trailer (st : CpioWriterState) : CpioWriterState :=
  write_entry st trailerName 0 []

/-- Write a sequence of entries followed by the trailer and return the
archive bytes. -/
def buildArchive (entries : List CpioEntry) : List Nat :=
  (write_trailer
    (entries.foldl (fun st e => write_entry st e.name e.mode e.data)
      CpioWriterState.new)).out

/-- Whether a byte is an ASCII hex digit. -/
def isHexByte (b : Nat) : Bool :=
  (48 ≤ b && b ≤ 57) || (65 ≤ b && b ≤ 70) || (97 ≤ b && b ≤ 102)

/-- Value of an ASCII hex digit byte. -/
def hexByteVal (b : Nat) : Nat :=
  if b ≤ 57 then b - 48 else if b ≤ 70 then b - 55 else b - 87

/-- `parse_hex` from `initramfs.rs`: decode the bytes as UTF-8 (failure
gives `"0"`), then `u32::from_str_radix(_, 16).unwrap_or(0)`; the radix
parse accepts an optional leading `+` and fails — giving 0 — on an empty
string, a non-hex-digit, or 32-bit overflow.  Bytes outside ASCII hex can
never spell a hex digit, so UTF-8 decoding needs no separate model. -/
def parseHexField (bs : List Nat) : Nat :=
  let ds := if bs.head? = some 43 then bs.tail else bs
  if ds.isEmpty then 0
  else if ds.all isHexByte then
    if ds.foldl (fun a b => a * 16 + hexByteVal b) 0 < 4294967296 then
      ds.foldl (fun a b => a * 16 + hexByteVal b) 0
    else 0
  else 0

/-- Drop trailing zero bytes: `trim_end_matches('\0')` applied to the
lossy-decoded name buffer. -/
def dropTrailingZeros (bs : List Nat) : List Nat :=
  (bs.reverse.dropWhile (· = 0)).reverse

/-- Rust `str::from_utf8(..).unwrap_or("")` for the 6 magic bytes, used only
in the error message. -/
def asciiString (bs : List Nat) : String :=
  if bs.all (· < 128) then ⟨bs.map Char.ofNat⟩ else ""

/-- `CpioReader::next_entry`: `ok none` at end of stream (the 110-byte
header read hits `UnexpectedEof`), otherwise magic check, header fields at
offsets 14 (mode), 54 (filesize) and 94 (namesize), the name buffer with
trailing-NUL trim, alignment skips, and the data bytes. -/
def next_entry (bytes : List Nat) :
    Except ContainustError (Option (CpioEntry × List Nat)) :=
  if bytes.length < 110 then .ok none
  else
    let header := bytes.take 110
    let rest := bytes.drop 110
    if header.take 6 ≠ "070701".data.map Char.toNat then
      .error (ContainustError.Config
        ("invalid CPIO magic: " ++ asciiString (header.take 6)))
    else
      let mode := parseHexField ((header.drop 14).take 8)
      let filesize := parseHexField ((header.drop 54).take 8)
      let namesize := parseHexField ((header.drop 94).take 8)
      if rest.length < namesize then .error (ContainustError.Io "<cpio>")
      else
        let nameBuf := rest.take namesize
        let rest2 := (rest.drop namesize).drop (pad4 (110 + namesize))
        if rest2.length < filesize then .error (ContainustError.Io "<cpio>")
        else
          let data := rest2.take filesize
          let rest3 := (rest2.drop filesize).drop (pad4 filesize)
          .ok (some (⟨dropTrailingZeros nameBuf, mode, data⟩, rest3))

/-- Iterate `next_entry` to the end of the stream, collecting entries (fuel
bounds the number of entries; every entry consumes at least 110 bytes). -/
def readEntries (fuel : Nat) (bytes : List Nat) :
    Except ContainustError (List CpioEntry) :=
  match fuel with
  | 0 => .ok []
  | fuel + 1 =>
    match next_entry bytes with
    | .error e => .error e
    | .ok none => .ok []
    | .ok (some (e, rest)) =>
      match readEntries fuel rest with
      | .ok es => .ok (e :: es)
      | .error e2 => .error e2

/-- Read a whole archive. -/
def read_archive (bytes : List Nat) : Except ContainustError (List CpioEntry) :=
  readEntries bytes.length bytes

/-- The C3 failing input: an unrecognized leading character, eighteen ASCII
letters, then one two-byte character, so the failed-token error path slices
the message prefix at byte index min(21, 20) = 20, inside the final
character. -/
def lexerPanicInput : List Char := "@aaaaaaaaaaaaaaaaaaé".data

/-- A hexadecimal digit character (either case). -/
def isHexDigitChar (c : Char) : Bool :=
  c.isDigit || ('a' ≤ c && c ≤ 'f') || ('A' ≤ c && c ≤ 'F')

/-- A lowercase hexadecimal digit character. -/
def isLowerHexChar (c : Char) : Bool :=
  c.isDigit || ('a' ≤ c && c ≤ 'f')

/-- The entries one connection contributes in `resolve_connections`: the
target's entries when the target exists, nothing otherwise. -/
def stepEntries (file : CompositionFile) (conn : ConnectionDecl) :
    List (String × String) :=
  match file.components.find? (fun c => c.name = conn.toName) with
  | some target => connectionEntries conn target
  | none => []

/-- A two-component composition used to instantiate C1. -/
def c1Web : ComponentDecl :=
  { ComponentDecl.defaultDecl with name := "web", image := some "w" }

/-- The C1 witness target component, declaring port 5432. -/
def c1Db : ComponentDecl :=
  { ComponentDecl.defaultDecl with
      name := "database"
      image := some "d"
      port := some 5432 }

/-- The C1 witness composition: `web` connected to `database`. -/
def c1File : CompositionFile :=
  ⟨[], [c1Web, c1Db], [⟨"web", "database"⟩]⟩

/-- A directed walk of length `k` along graph edges. -/
def ReachN (edges : List (Nat × Nat)) : Nat → Nat → Nat → Prop
  | 0, a, b => a = b
  | k + 1, a, b => ∃ c, (a, c) ∈ edges ∧ ReachN edges k c b

/-- A graph is cyclic when some node reaches itself along at least one
edge. -/
def HasCycle (edges : List (Nat × Nat)) : Prop :=
  ∃ v k, ReachN edges (k + 1) v v

/-- The byte chunk one `write_entry` call appends, as a function of the
inode counter and archive position at the call. -/
def entryChunk (ino pos : Nat) (name : List Nat) (mode : Nat)
    (data : List Nat) : List Nat :=
  let nameNul := name ++ [0]
  let header := (cpioHeader ((ino + 1) % 4294967296) mode data.length
    nameNul.length).map Char.toNat
  header ++ nameNul ++
    List.replicate (pad4 (pos + header.length + nameNul.length)) 0 ++
    data ++
    List.replicate (pad4 (pos + header.length + nameNul.length +
      pad4 (pos + header.length + nameNul.length) + data.length)) 0

/-- The byte stream from writing a list of entries followed by the trailer,
starting at inode counter `ino` and archive position `pos`. -/
def chunks (ino pos : Nat) : List CpioEntry → List Nat
  | [] => entryChunk ino pos trailerName 0 []
  | e :: rest =>
    entryChunk ino pos e.name e.mode e.data ++
      chunks ((ino + 1) % 4294967296)
        (pos + (entryChunk ino pos e.name e.mode e.data).length) rest

/-- A writable entry the reader can reproduce: the name carries no trailing
NUL byte (the reader trims those), and mode, name size and data size fit the
32-bit header fields. -/
def GoodEntry (e : CpioEntry) : Prop :=
  dropTrailingZeros e.name = e.name ∧ e.mode < 4294967296 ∧
    e.name.length + 1 < 4294967296 ∧ e.data.length < 4294967296

instance (e : CpioEntry) : Decidable (GoodEntry e) := by
  unfold GoodEntry
  infer_instance

/-! ## Shared helper lemmas -/

theorem dropWhile_of_forall_not {p : Char → Bool} {s : List Char}
    (h : ∀ c ∈ s, p c = false) : s.dropWhile p = s := by
  cases s with
  | nil => rfl
  | cons c rest =>
    rw [List.dropWhile_cons_of_neg]
    simp [h c (List.mem_cons_self c rest)]

theorem rustTrim_eq_self {s : List Char}
    (h : ∀ c ∈ s, isRustWhitespace c = false) : rustTrim s = s := by
  unfold rustTrim
  rw [dropWhile_of_forall_not h, dropWhile_of_forall_not, List.reverse_reverse]
  intro c hc
  exact h c (List.mem_reverse.mp hc)

theorem stripSuffix_append (suf ds : List Char) :
    stripSuffix suf (ds ++ suf) = some ds := by
  unfold stripSuffix
  rw [if_pos, List.length_append]
  · congr 1
    have h2 : ds.length + suf.length - suf.length = ds.length := by omega
    rw [h2, List.take_left]
  · rw [List.isSuffixOf_iff_suffix]
    exact List.suffix_append ds suf

theorem stripSuffix_append_ne {suf other : List Char} (ds : List Char)
    (h1 : ¬ suf <:+ other) (h2 : ¬ other <:+ suf) :
    stripSuffix suf (ds ++ other) = none := by
  unfold stripSuffix
  rw [if_neg]
  intro hs
  rw [List.isSuffixOf_iff_suffix] at hs
  rcases List.suffix_or_suffix_of_suffix hs (List.suffix_append ds other) with h | h
  · exact h1 h
  · exact h2 h

theorem stripSuffix_digits {suf ds : List Char} (c : Char) (hc : c ∈ suf)
    (hds : ∀ x ∈ ds, x.isDigit = true) (hnd : c.isDigit = false) :
    stripSuffix suf ds = none := by
  unfold stripSuffix
  rw [if_neg]
  intro hs
  rw [List.isSuffixOf_iff_suffix] at hs
  have := hds c (hs.subset hc)
  simp [this] at hnd

theorem not_ws_of_digit (c : Char) (h : c.isDigit = true) :
    isRustWhitespace c = false := by
  have hv : 48 ≤ c.val.toNat ∧ c.val.toNat ≤ 57 := by
    simp only [Char.isDigit, decide_eq_true_eq, Bool.and_eq_true] at h
    exact ⟨h.1, h.2⟩
  have e1 : (' ' : Char).val.toNat = 32 := rfl
  have e2 : ('\t' : Char).val.toNat = 9 := rfl
  have e3 : ('\n' : Char).val.toNat = 10 := rfl
  have e4 : ('\r' : Char).val.toNat = 13 := rfl
  have e5 : (0x0B : UInt32).toNat = 11 := rfl
  have e6 : (0x0C : UInt32).toNat = 12 := rfl
  have e7 : (0x85 : UInt32).toNat = 133 := rfl
  have e8 : (0xA0 : UInt32).toNat = 160 := rfl
  have e9 : (0x1680 : UInt32).toNat = 5760 := rfl
  have e10 : (0x2000 : UInt32).toNat = 8192 := rfl
  have e11 : (0x200A : UInt32).toNat = 8202 := rfl
  have e12 : (0x2028 : UInt32).toNat = 8232 := rfl
  have e13 : (0x2029 : UInt32).toNat = 8233 := rfl
  have e14 : (0x202F : UInt32).toNat = 8239 := rfl
  have e15 : (0x205F : UInt32).toNat = 8287 := rfl
  have e16 : (0x3000 : UInt32).toNat = 12288 := rfl
  have hle : ∀ a b : UInt32, (a ≤ b) = (a.toNat ≤ b.toNat) := fun a b => rfl
  simp only [isRustWhitespace, Char.ext_iff, UInt32.ext_iff, hle,
    Bool.or_eq_false_iff, Bool.and_eq_false_iff, decide_eq_false_iff_not, not_le]
  omega

theorem parseU64_digits (ds : List Char) (hne : ds ≠ [])
    (hd : ∀ c ∈ ds, c.isDigit = true) (hv : digitsVal ds < 2 ^ 64) :
    parseU64 ds = some (digitsVal ds) := by
  have hplus : ¬ ds.head? = some '+' := by
    cases ds with
    | nil => simp
    | cons c rest =>
      simp only [List.head?_cons, Option.some.injEq]
      intro he
      subst he
      exact absurd (hd '+' (List.mem_cons_self _ _)) (by decide)
  have hall : ds.all (·.isDigit) = true := by
    rw [List.all_eq_true]
    exact hd
  unfold parseU64
  rw [if_neg hplus, if_neg (by simp [List.isEmpty_iff, hne]), if_pos hall, if_pos hv]

theorem rustTrim_digits_append (ds suffix : List Char)
    (hd : ∀ c ∈ ds, c.isDigit = true)
    (hs : ∀ c ∈ suffix, isRustWhitespace c = false) :
    rustTrim (ds ++ suffix) = ds ++ suffix := by
  apply rustTrim_eq_self
  intro c hc
  rcases List.mem_append.mp hc with h | h
  · exact not_ws_of_digit c (hd c h)
  · exact hs c h

theorem parse_memory_gib (ds : List Char) (hne : ds ≠ [])
    (hd : ∀ c ∈ ds, c.isDigit = true) (hv : digitsVal ds < 2 ^ 64) :
    parse_memory (ds ++ "GiB".data) = some (digitsVal ds * 1073741824 % 2 ^ 64) := by
  have htrim := rustTrim_digits_append ds "GiB".data hd (by decide)
  have h1 := stripSuffix_append "GiB".data ds
  have htrim2 := rustTrim_eq_self (fun c hc => not_ws_of_digit c (hd c hc))
  simp only [parse_memory, htrim, h1, htrim2, parseU64_digits ds hne hd hv]
  norm_num

theorem parse_memory_gb (ds : List Char) (hne : ds ≠ [])
    (hd : ∀ c ∈ ds, c.isDigit = true) (hv : digitsVal ds < 2 ^ 64) :
    parse_memory (ds ++ "GB".data) = some (digitsVal ds * 1000000000 % 2 ^ 64) := by
  have htrim := rustTrim_digits_append ds "GB".data hd (by decide)
  have h1 := @stripSuffix_append_ne "GiB".data "GB".data ds
    (by decide) (by decide)
  have h2 := stripSuffix_append "GB".data ds
  have htrim2 := rustTrim_eq_self (fun c hc => not_ws_of_digit c (hd c hc))
  simp only [parse_memory, htrim, h1, h2, htrim2, parseU64_digits ds hne hd hv]
  norm_num

theorem parse_memory_mib (ds : List Char) (hne : ds ≠ [])
    (hd : ∀ c ∈ ds, c.isDigit = true) (hv : digitsVal ds < 2 ^ 64) :
    parse_memory (ds ++ "MiB".data) = some (digitsVal ds * 1048576 % 2 ^ 64) := by
  have htrim := rustTrim_digits_append ds "MiB".data hd (by decide)
  have h1 := @stripSuffix_append_ne "GiB".data "MiB".data ds
    (by decide) (by decide)
  have h2 := @stripSuffix_append_ne "GB".data "MiB".data ds
    (by decide) (by decide)
  have h3 := stripSuffix_append "MiB".data ds
  have htrim2 := rustTrim_eq_self (fun c hc => not_ws_of_digit c (hd c hc))
  simp only [parse_memory, htrim, h1, h2, h3, htrim2, parseU64_digits ds hne hd hv]
  norm_num

theorem parse_memory_mb (ds : List Char) (hne : ds ≠ [])
    (hd : ∀ c ∈ ds, c.isDigit = true) (hv : digitsVal ds < 2 ^ 64) :
    parse_memory (ds ++ "MB".data) = some (digitsVal ds * 1000000 % 2 ^ 64) := by
  have htrim := rustTrim_digits_append ds "MB".data hd (by decide)
  have h1 := @stripSuffix_append_ne "GiB".data "MB".data ds
    (by decide) (by decide)
  have h2 := @stripSuffix_append_ne "GB".data "MB".data ds
    (by decide) (by decide)
  have h3 := @stripSuffix_append_ne "MiB".data "MB".data ds
    (by decide) (by decide)
  have h4 := stripSuffix_append "MB".data ds
  have htrim2 := rustTrim_eq_self (fun c hc => not_ws_of_digit c (hd c hc))
  simp only [parse_memory, htrim, h1, h2, h3, h4, htrim2,
    parseU64_digits ds hne hd hv]
  norm_num

theorem parse_memory_kib (ds : List Char) (hne : ds ≠ [])
    (hd : ∀ c ∈ ds, c.isDigit = true) (hv : digitsVal ds < 2 ^ 64) :
    parse_memory (ds ++ "KiB".data) = some (digitsVal ds * 1024 % 2 ^ 64) := by
  have htrim := rustTrim_digits_append ds "KiB".data hd (by decide)
  have h1 := @stripSuffix_append_ne "GiB".data "KiB".data ds
    (by decide) (by decide)
  have h2 := @stripSuffix_append_ne "GB".data "KiB".data ds
    (by decide) (by decide)
  have h3 := @stripSuffix_append_ne "MiB".data "KiB".data ds
    (by decide) (by decide)
  have h4 := @stripSuffix_append_ne "MB".data "KiB".data ds
    (by decide) (by decide)
  have h5 := stripSuffix_append "KiB".data ds
  have htrim2 := rustTrim_eq_self (fun c hc => not_ws_of_digit c (hd c hc))
  simp only [parse_memory, htrim, h1, h2, h3, h4, h5, htrim2,
    parseU64_digits ds hne hd hv]
  norm_num

theorem parse_memory_kb (ds : List Char) (hne : ds ≠ [])
    (hd : ∀ c ∈ ds, c.isDigit = true) (hv : digitsVal ds < 2 ^ 64) :
    parse_memory (ds ++ "KB".data) = some (digitsVal ds * 1000 % 2 ^ 64) := by
  have htrim := rustTrim_digits_append ds "KB".data hd (by decide)
  have h1 := @stripSuffix_append_ne "GiB".data "KB".data ds
    (by decide) (by decide)
  have h2 := @stripSuffix_append_ne "GB".data "KB".data ds
    (by decide) (by decide)
  have h3 := @stripSuffix_append_ne "MiB".data "KB".data ds
    (by decide) (by decide)
  have h4 := @stripSuffix_append_ne "MB".data "KB".data ds
    (by decide) (by decide)
  have h5 := @stripSuffix_append_ne "KiB".data "KB".data ds
    (by decide) (by decide)
  have h6 := stripSuffix_append "KB".data ds
  have htrim2 := rustTrim_eq_self (fun c hc => not_ws_of_digit c (hd c hc))
  simp only [parse_memory, htrim, h1, h2, h3, h4, h5, h6, htrim2,
    parseU64_digits ds hne hd hv]
  norm_num

theorem parse_memory_raw (ds : List Char) (hne : ds ≠ [])
    (hd : ∀ c ∈ ds, c.isDigit = true) (hv : digitsVal ds < 2 ^ 64) :
    parse_memory ds = some (digitsVal ds) := by
  have htrim := rustTrim_eq_self (fun c hc => not_ws_of_digit c (hd c hc))
  have hB : ('B' : Char).isDigit = false := by decide
  have h1 := @stripSuffix_digits "GiB".data ds 'B' (by decide) hd hB
  have h2 := @stripSuffix_digits "GB".data ds 'B' (by decide) hd hB
  have h3 := @stripSuffix_digits "MiB".data ds 'B' (by decide) hd hB
  have h4 := @stripSuffix_digits "MB".data ds 'B' (by decide) hd hB
  have h5 := @stripSuffix_digits "KiB".data ds 'B' (by decide) hd hB
  have h6 := @stripSuffix_digits "KB".data ds 'B' (by decide) hd hB
  simp only [parse_memory, htrim, h1, h2, h3, h4, h5, h6,
    parseU64_digits ds hne hd hv]
  simp [Nat.mod_eq_of_lt hv]
  exact hv

/-! ## Claim theorems -/

/-- C7: memory-string parsing interprets the suffixes GiB, MiB and KiB with
1024-based multipliers, GB, MB and KB with 1000-based multipliers, and a
suffix-less numeric string as raw bytes; in particular "128MiB" parses to
exactly 134217728 bytes, "1GiB" to 1073741824 bytes, and "1048576" to
1048576 bytes. -/
theorem C7_memory_parsing :
    parse_memory "128MiB".data = some 134217728 ∧
    parse_memory "1GiB".data = some 1073741824 ∧
    parse_memory "1048576".data = some 1048576 ∧
    (∀ ds : List Char, ds ≠ [] → (∀ c ∈ ds, c.isDigit = true) →
      digitsVal ds < 2 ^ 64 →
      parse_memory (ds ++ "GiB".data) = some (digitsVal ds * 1073741824 % 2 ^ 64) ∧
      parse_memory (ds ++ "GB".data) = some (digitsVal ds * 1000000000 % 2 ^ 64) ∧
      parse_memory (ds ++ "MiB".data) = some (digitsVal ds * 1048576 % 2 ^ 64) ∧
      parse_memory (ds ++ "MB".data) = some (digitsVal ds * 1000000 % 2 ^ 64) ∧
      parse_memory (ds ++ "KiB".data) = some (digitsVal ds * 1024 % 2 ^ 64) ∧
      parse_memory (ds ++ "KB".data) = some (digitsVal ds * 1000 % 2 ^ 64) ∧
      parse_memory ds = some (digitsVal ds)) := by
  refine ⟨by decide, by decide, by decide, ?_⟩
  intro ds hne hd hv
  exact ⟨parse_memory_gib ds hne hd hv, parse_memory_gb ds hne hd hv,
    parse_memory_mib ds hne hd hv, parse_memory_mb ds hne hd hv,
    parse_memory_kib ds hne hd hv, parse_memory_kb ds hne hd hv,
    parse_memory_raw ds hne hd hv⟩

/-- C7 witness: the quantified part of C7 applied at the concrete digit
string "42" with its hypotheses discharged. -/
theorem C7_memory_parsing_witness :
    ("42".data ≠ [] ∧ (∀ c ∈ "42".data, c.isDigit = true) ∧
      digitsVal "42".data < 2 ^ 64) ∧
    parse_memory ("42".data ++ "MiB".data) =
      some (digitsVal "42".data * 1048576 % 2 ^ 64) :=
  ⟨⟨by decide, by decide, by decide⟩,
   (C7_memory_parsing.2.2.2 "42".data (by decide) (by decide) (by decide)).2.2.1⟩



/-- C3: the claim says `tokenize` always returns either a token sequence or
a Config error naming the offending prefix, with no panic possible.  The
code violates this: on `lexerPanicInput` the error formatting slices
`&remaining[..remaining.len().min(20)]` at a non-boundary byte index,
which panics in Rust. -/
theorem C3_tokenize_panics_on_multibyte_prefix :
    tokenize lexerPanicInput = LexOutcome.panicked ∧
    ∀ toks off, tokenize lexerPanicInput ≠ LexOutcome.ok toks ∧
      tokenize lexerPanicInput ≠ LexOutcome.err off := by
  have h : tokenize lexerPanicInput = LexOutcome.panicked := by decide
  refine ⟨h, fun toks off => ⟨?_, ?_⟩⟩ <;> rw [h] <;> intro hc <;> cases hc



/-- C9 counterexample: the claim says every generated container identifier
consists solely of hexadecimal digit characters encoding 128 random bits.
`ContainerId::generate` returns a hyphenated UUID string: already at the
all-zero random bytes the output `00000000-0000-4000-8000-000000000000`
contains hyphens, so it is not made of hex digits only (and its version
and variant bits are fixed, not random). -/
theorem C9_counterexample_hyphens :
    (ContainerId.generate 0 0 0 0 0 0 0 0 0 0 0 0 0 0 0 0).all isHexDigitChar
      = false ∧
    ContainerId.generate 0 0 0 0 0 0 0 0 0 0 0 0 0 0 0 0
      = "00000000-0000-4000-8000-000000000000".data := by
  constructor
  · decide
  · decide

theorem hexDigitLower_lowerhex (n : Nat) (h : n < 16) :
    isLowerHexChar (hexDigitLower n) = true := by
  interval_cases n <;> decide

theorem hexByte_lowerhex (b : Nat) :
    (hexByte b).all isLowerHexChar = true := by
  simp only [hexByte, List.all_cons, List.all_nil, Bool.and_true, Bool.and_eq_true]
  exact ⟨hexDigitLower_lowerhex _ (Nat.lt_of_lt_of_le (Nat.mod_lt _ (by omega)) (by omega)),
    hexDigitLower_lowerhex _ (Nat.mod_lt _ (by omega))⟩

/-- C9 (amended): every generated container identifier is a version-4 UUID
rendered in hyphenated lowercase-hex form — five lowercase-hex groups of
lengths 8, 4, 4, 4 and 12 separated by hyphens (36 characters in all, with
hyphens exactly at positions 8, 13, 18 and 23), whose version character
(the first of the third group) is `4` and whose variant character (the
first of the fourth group) is one of `8`, `9`, `a`, `b`; only 122 of the
128 random bits reach the output. -/
theorem C9_generate_is_hyphenated_uuid4
    (b0 b1 b2 b3 b4 b5 b6 b7 b8 b9 b10 b11 b12 b13 b14 b15 : Nat) :
    ∃ g1 g2 g3 g4 g5 : List Char,
      ContainerId.generate b0 b1 b2 b3 b4 b5 b6 b7 b8 b9 b10 b11 b12 b13 b14 b15
        = g1 ++ '-' :: (g2 ++ '-' :: (g3 ++ '-' :: (g4 ++ '-' :: g5))) ∧
      g1.length = 8 ∧ g2.length = 4 ∧ g3.length = 4 ∧ g4.length = 4 ∧
      g5.length = 12 ∧
      g1.all isLowerHexChar = true ∧ g2.all isLowerHexChar = true ∧
      g3.all isLowerHexChar = true ∧ g4.all isLowerHexChar = true ∧
      g5.all isLowerHexChar = true ∧
      g3.head? = some '4' ∧
      (g4.head? = some '8' ∨ g4.head? = some '9' ∨ g4.head? = some 'a' ∨
        g4.head? = some 'b') := by
  refine ⟨hexByte b0 ++ hexByte b1 ++ hexByte b2 ++ hexByte b3,
    hexByte b4 ++ hexByte b5,
    hexByte (b6 % 16 + 64) ++ hexByte b7,
    hexByte (b8 % 64 + 128) ++ hexByte b9,
    hexByte b10 ++ hexByte b11 ++ hexByte b12 ++ hexByte b13 ++ hexByte b14 ++
      hexByte b15, ?_, ?_, ?_, ?_, ?_, ?_, ?_, ?_, ?_, ?_, ?_, ?_, ?_⟩
  · simp [ContainerId.generate, hexByte]
  · simp [hexByte]
  · simp [hexByte]
  · simp [hexByte]
  · simp [hexByte]
  · simp [hexByte]
  · simp only [List.all_append, Bool.and_eq_true]
    exact ⟨⟨⟨hexByte_lowerhex b0, hexByte_lowerhex b1⟩, hexByte_lowerhex b2⟩,
      hexByte_lowerhex b3⟩
  · simp only [List.all_append, Bool.and_eq_true]
    exact ⟨hexByte_lowerhex b4, hexByte_lowerhex b5⟩
  · simp only [List.all_append, Bool.and_eq_true]
    exact ⟨hexByte_lowerhex _, hexByte_lowerhex b7⟩
  · simp only [List.all_append, Bool.and_eq_true]
    exact ⟨hexByte_lowerhex _, hexByte_lowerhex b9⟩
  · simp only [List.all_append, Bool.and_eq_true]
    exact ⟨⟨⟨⟨⟨hexByte_lowerhex b10, hexByte_lowerhex b11⟩, hexByte_lowerhex b12⟩,
      hexByte_lowerhex b13⟩, hexByte_lowerhex b14⟩, hexByte_lowerhex b15⟩
  · have h4 : (b6 % 16 + 64) / 16 % 16 = 4 := by omega
    simp [hexByte, h4, hexDigitLower]
  · have hv : (b8 % 64 + 128) / 16 % 16 = 8 + b8 % 64 / 16 := by omega
    have hlt : b8 % 64 / 16 < 4 := by omega
    simp only [hexByte, List.append_eq, List.cons_append, List.head?_cons,
      Option.some.injEq, hv]
    interval_cases h : b8 % 64 / 16 <;> simp [hexDigitLower]

theorem check_dup_ok_iff (comps : List ComponentDecl) (seen : List String) :
    check_duplicate_components comps seen = .ok () ↔
      ((comps.map (·.name)).Nodup ∧ ∀ n ∈ comps.map (·.name), n ∉ seen) := by
  induction comps generalizing seen with
  | nil => simp [check_duplicate_components]
  | cons c rest ih =>
    simp only [check_duplicate_components]
    by_cases hm : c.name ∈ seen
    · rw [if_pos hm]
      constructor
      · intro h
        cases h
      · rintro ⟨-, hall⟩
        exact absurd hm (hall c.name (by simp))
    · rw [if_neg hm, ih]
      constructor
      · rintro ⟨hA, hall⟩
        refine ⟨?_, ?_⟩
        · simp only [List.map_cons, List.nodup_cons]
          exact ⟨fun hmem => (hall c.name hmem) (List.mem_cons_self _ _), hA⟩
        · intro n hn
          simp only [List.map_cons, List.mem_cons] at hn
          rcases hn with rfl | hn
          · exact hm
          · intro hns
            exact (hall n hn) (List.mem_cons_of_mem _ hns)
      · rintro ⟨hnd, hall⟩
        simp only [List.map_cons, List.nodup_cons] at hnd
        refine ⟨hnd.2, ?_⟩
        intro n hn hmem
        rcases List.mem_cons.mp hmem with rfl | hns
        · exact hnd.1 hn
        · exact (hall n (by simp [hn])) hns

theorem check_conn_ok_iff (names : List String) (conns : List ConnectionDecl) :
    check_connection_references names conns = .ok () ↔
      ∀ conn ∈ conns, conn.fromName ∈ names ∧ conn.toName ∈ names := by
  induction conns with
  | nil => simp [check_connection_references]
  | cons conn rest ih =>
    simp only [check_connection_references]
    by_cases hf : conn.fromName ∈ names
    · by_cases ht : conn.toName ∈ names
      · rw [if_neg (by simp [hf]), if_neg (by simp [ht]), ih]
        constructor
        · intro hall c hc
          rcases List.mem_cons.mp hc with rfl | hc
          · exact ⟨hf, ht⟩
          · exact hall c hc
        · intro hall c hc
          exact hall c (List.mem_cons_of_mem _ hc)
      · rw [if_neg (by simp [hf]), if_pos (by simp [ht])]
        constructor
        · intro h
          cases h
        · intro hall
          exact absurd (hall conn (List.mem_cons_self _ _)).2 ht
    · rw [if_pos (by simp [hf])]
      constructor
      · intro h
        cases h
      · intro hall
        exact absurd (hall conn (List.mem_cons_self _ _)).1 hf

theorem check_img_ok_iff (comps : List ComponentDecl) :
    check_image_required comps = .ok () ↔
      ∀ comp ∈ comps, comp.from_template ≠ none ∨ comp.image ≠ none := by
  induction comps with
  | nil => simp [check_image_required]
  | cons c rest ih =>
    simp only [check_image_required]
    by_cases hc : c.from_template = none ∧ c.image = none
    · rw [if_pos hc]
      constructor
      · intro h
        cases h
      · intro hall
        rcases hall c (List.mem_cons_self _ _) with h | h
        · exact absurd hc.1 h
        · exact absurd hc.2 h
    · rw [if_neg hc, ih]
      constructor
      · intro hall c2 hc2
        rcases List.mem_cons.mp hc2 with rfl | hc2
        · by_cases h1 : c2.from_template = none
          · right
            intro h2
            exact hc ⟨h1, h2⟩
          · left
            exact h1
        · exact hall c2 hc2
      · intro hall c2 hc2
        exact hall c2 (List.mem_cons_of_mem _ hc2)

/-- C4: validation rejects a parsed composition if and only if it exhibits
(a) two components with the same name, (b) a connection whose source or
target is not in the component set, or (c) a component with no template
parent and no image; every composition exhibiting none of these passes. -/
theorem C4_validate_ok_iff (file : CompositionFile) :
    validate file = .ok () ↔
      ((file.components.map (·.name)).Nodup ∧
       (∀ conn ∈ file.connections,
          conn.fromName ∈ file.components.map (·.name) ∧
          conn.toName ∈ file.components.map (·.name)) ∧
       (∀ comp ∈ file.components,
          comp.from_template ≠ none ∨ comp.image ≠ none)) := by
  unfold validate
  cases h1 : check_duplicate_components file.components [] with
  | error e =>
    simp only [bind, Except.bind]
    constructor
    · intro h
      cases h
    · rintro ⟨hnd, -, -⟩
      have := (check_dup_ok_iff file.components []).mpr ⟨hnd, by simp⟩
      rw [h1] at this
      cases this
  | ok u =>
    cases u
    have hdup := (check_dup_ok_iff file.components []).mp h1
    cases h2 : check_connection_references (file.components.map (·.name))
        file.connections with
    | error e =>
      simp only [bind, Except.bind]
      constructor
      · intro h
        cases h
      · rintro ⟨-, hconn, -⟩
        have := (check_conn_ok_iff _ _).mpr hconn
        rw [h2] at this
        cases this
    | ok u =>
      cases u
      simp only [bind, Except.bind]
      rw [check_img_ok_iff]
      constructor
      · intro himg
        exact ⟨hdup.1, (check_conn_ok_iff _ _).mp h2, himg⟩
      · rintro ⟨-, -, himg⟩
        exact himg

theorem inject_map_name (resolved : List ResolvedComponent)
    (conn : ConnectionDecl) (target : ComponentDecl) :
    (inject_connection_env resolved conn target).map (·.name)
      = resolved.map (·.name) := by
  induction resolved with
  | nil => rfl
  | cons r rest ih =>
    simp only [inject_connection_env]
    by_cases h : r.name = conn.fromName
    · simp [h]
    · simp [h, ih]

theorem inject_of_not_mem (resolved : List ResolvedComponent)
    (conn : ConnectionDecl) (target : ComponentDecl)
    (h : conn.fromName ∉ resolved.map (·.name)) :
    inject_connection_env resolved conn target = resolved := by
  induction resolved with
  | nil => rfl
  | cons r rest ih =>
    simp only [List.map_cons, List.mem_cons] at h
    push_neg at h
    simp only [inject_connection_env]
    rw [if_neg (fun he => h.1 he.symm), ih h.2]

theorem resolveStep_map_name (file : CompositionFile)
    (resolved : List ResolvedComponent) (conn : ConnectionDecl) :
    (resolveStep file resolved conn).map (·.name) = resolved.map (·.name) := by
  unfold resolveStep
  cases file.components.find? (fun c => c.name = conn.toName) with
  | none => rfl
  | some target => exact inject_map_name resolved conn target

theorem foldl_resolveStep_map_name (file : CompositionFile)
    (conns : List ConnectionDecl) (resolved : List ResolvedComponent) :
    ((conns.foldl (resolveStep file) resolved).map (·.name))
      = resolved.map (·.name) := by
  induction conns generalizing resolved with
  | nil => rfl
  | cons conn rest ih =>
    rw [List.foldl_cons, ih, resolveStep_map_name]

theorem foldl_resolveStep_filter (file : CompositionFile)
    (conns : List ConnectionDecl) (resolved : List ResolvedComponent)
    (hinv : resolved.map (·.name) = file.components.map (·.name)) :
    conns.foldl (resolveStep file) resolved
      = (conns.filter
          (fun conn => (file.components.any (fun c => c.name = conn.toName)) &&
            (file.components.any (fun c => c.name = conn.fromName)))).foldl
          (resolveStep file) resolved := by
  induction conns generalizing resolved with
  | nil => rfl
  | cons conn rest ih =>
    rw [List.foldl_cons]
    by_cases ht : file.components.any (fun c => c.name = conn.toName)
    · by_cases hf : file.components.any (fun c => c.name = conn.fromName)
      · rw [List.filter_cons_of_pos (by simp [ht, hf]), List.foldl_cons]
        exact ih _ (by rw [resolveStep_map_name, hinv])
      · have hstep : resolveStep file resolved conn = resolved := by
          unfold resolveStep
          cases hfind : file.components.find? (fun c => c.name = conn.toName) with
          | none => rfl
          | some target =>
            apply inject_of_not_mem
            rw [hinv]
            intro hmem
            apply hf
            rw [List.any_eq_true]
            rcases List.mem_map.mp hmem with ⟨c, hc, hcn⟩
            exact ⟨c, hc, by simp [hcn]⟩
        rw [List.filter_cons_of_neg (by simp [hf]), hstep]
        exact ih _ hinv
    · have hstep : resolveStep file resolved conn = resolved := by
        unfold resolveStep
        cases hfind : file.components.find? (fun c => c.name = conn.toName) with
        | none => rfl
        | some target =>
          exact absurd (List.any_eq_true.mpr
            ⟨target, List.mem_of_find?_eq_some hfind,
              by simpa using (List.find?_some hfind)⟩) ht
      rw [List.filter_cons_of_neg (by simp [ht]), hstep]
      exact ih _ hinv

/-- C10: `resolve_connections` is total — it returns `Ok` on every
composition file, validated or not, with exactly one resolved record per
declared component in declaration order — and a connection whose target or
source name matches no declared component contributes nothing: the result
is unchanged if all such connections are removed. -/
theorem C10_resolver_total_and_ignores_dangling (file : CompositionFile) :
    ∃ res, resolve_connections file = .ok res ∧
      res.map (·.name) = file.components.map (·.name) ∧
      resolve_connections file = resolve_connections
        { file with connections :=
            (file.connections.filter
              (fun conn => (file.components.any (fun c => c.name = conn.toName)) &&
                (file.components.any (fun c => c.name = conn.fromName)))) } := by
  refine ⟨_, rfl, ?_, ?_⟩
  · rw [foldl_resolveStep_map_name]
    simp
  · simp only [resolve_connections]
    rw [foldl_resolveStep_filter file file.connections _ (by simp)]
    rfl

theorem toDigitsCore_length_mono (b : Nat) :
    ∀ (fuel n : Nat) (ds : List Char),
      ds.length ≤ (Nat.toDigitsCore b fuel n ds).length
  | 0, _, _ => le_refl _
  | fuel + 1, n, ds => by
    unfold Nat.toDigitsCore
    by_cases h : n / b = 0
    · simp [h]
    · rw [if_neg h]
      calc ds.length ≤ (Nat.digitChar (n % b) :: ds).length := by simp
        _ ≤ _ := toDigitsCore_length_mono b fuel (n / b) _

theorem natToString_not_isEmpty (p : Nat) : (toString p).isEmpty = false := by
  rw [Bool.eq_false_iff]
  intro h
  have he : toString p = "" := (String.isEmpty_iff _).mp h
  have hd : (Nat.toDigits 10 p) = [] := by
    have : (Nat.toDigits 10 p).asString = "" := he
    have h2 := congrArg String.data this
    simpa using h2
  have h3 : 1 ≤ (Nat.toDigitsCore 10 (p + 1) p []).length := by
    unfold Nat.toDigitsCore
    by_cases hz : p / 10 = 0
    · simp [hz]
    · rw [if_neg hz]
      calc 1 = (Nat.digitChar (p % 10) :: []).length := by simp
        _ ≤ _ := toDigitsCore_length_mono 10 p (p / 10) _
  rw [show Nat.toDigits 10 p = Nat.toDigitsCore 10 (p + 1) p [] from rfl] at hd
  rw [hd] at h3
  simp at h3

theorem find?_name_unique (comps : List ComponentDecl) (A : ComponentDecl)
    (hA : A ∈ comps) (hnd : (comps.map (·.name)).Nodup) :
    comps.find? (fun c => c.name = A.name) = some A := by
  induction comps with
  | nil => cases hA
  | cons c rest ih =>
    simp only [List.map_cons, List.nodup_cons] at hnd
    rcases List.mem_cons.mp hA with rfl | hA2
    · rw [List.find?_cons_of_pos _ (by simp)]
    · by_cases hc : c.name = A.name
      · exfalso
        apply hnd.1
        rw [hc]
        exact List.mem_map.mpr ⟨A, hA2, rfl⟩
      · rw [List.find?_cons_of_neg _ (by simp [hc])]
        exact ih hA2 hnd.2

theorem validate_ok_nodup (file : CompositionFile)
    (h : validate file = .ok ()) : (file.components.map (·.name)).Nodup := by
  unfold validate at h
  cases h1 : check_duplicate_components file.components [] with
  | error e =>
    rw [h1] at h
    simp [bind, Except.bind] at h
  | ok u =>
    cases u
    exact ((check_dup_ok_iff _ _).mp h1).1

theorem find?_inject_self (resolved : List ResolvedComponent)
    (conn : ConnectionDecl) (target : ComponentDecl) :
    (inject_connection_env resolved conn target).find?
        (fun r => r.name = conn.fromName)
      = (resolved.find? (fun r => r.name = conn.fromName)).map
          (fun r => ⟨r.name, r.env ++ connectionEntries conn target⟩) := by
  induction resolved with
  | nil => rfl
  | cons r rest ih =>
    simp only [inject_connection_env]
    by_cases h : r.name = conn.fromName
    · rw [if_pos h]
      rw [List.find?_cons_of_pos _ (by simp [h]), List.find?_cons_of_pos _ (by simp [h])]
      simp
    · rw [if_neg h, List.find?_cons_of_neg _ (by simp [h]),
        List.find?_cons_of_neg _ (by simp [h]), ih]

theorem find?_inject_other (resolved : List ResolvedComponent)
    (conn : ConnectionDecl) (target : ComponentDecl) (nm : String)
    (hne : nm ≠ conn.fromName) :
    (inject_connection_env resolved conn target).find? (fun r => r.name = nm)
      = resolved.find? (fun r => r.name = nm) := by
  induction resolved with
  | nil => rfl
  | cons r rest ih =>
    simp only [inject_connection_env]
    by_cases h : r.name = conn.fromName
    · rw [if_pos h]
      have hr : ¬ r.name = nm := fun hc => hne (hc ▸ h.symm ▸ rfl)
      rw [List.find?_cons_of_neg _ (by simpa using fun hc => hr (by simpa using hc)),
        List.find?_cons_of_neg _ (by simp [hr])]
    · rw [if_neg h]
      by_cases hr : r.name = nm
      · rw [List.find?_cons_of_pos _ (by simp [hr]),
          List.find?_cons_of_pos _ (by simp [hr])]
      · rw [List.find?_cons_of_neg _ (by simp [hr]),
          List.find?_cons_of_neg _ (by simp [hr]), ih]


theorem stepEntries_of_none {file : CompositionFile} {conn : ConnectionDecl}
    (h : file.components.find? (fun c => c.name = conn.toName) = none) :
    stepEntries file conn = [] := by
  unfold stepEntries
  rw [h]

theorem stepEntries_of_some {file : CompositionFile} {conn : ConnectionDecl}
    {target : ComponentDecl}
    (h : file.components.find? (fun c => c.name = conn.toName) = some target) :
    stepEntries file conn = connectionEntries conn target := by
  unfold stepEntries
  rw [h]

theorem resolveStep_of_none {file : CompositionFile} {conn : ConnectionDecl}
    (resolved : List ResolvedComponent)
    (h : file.components.find? (fun c => c.name = conn.toName) = none) :
    resolveStep file resolved conn = resolved := by
  unfold resolveStep
  rw [h]

theorem resolveStep_of_some {file : CompositionFile} {conn : ConnectionDecl}
    {target : ComponentDecl} (resolved : List ResolvedComponent)
    (h : file.components.find? (fun c => c.name = conn.toName) = some target) :
    resolveStep file resolved conn = inject_connection_env resolved conn target := by
  unfold resolveStep
  rw [h]

theorem foldl_find?_env (file : CompositionFile) (nm : String)
    (conns : List ConnectionDecl) (resolved : List ResolvedComponent) :
    ((conns.foldl (resolveStep file) resolved).find? (fun r => r.name = nm))
      = (resolved.find? (fun r => r.name = nm)).map
          (fun r => ⟨r.name, r.env ++
            ((conns.filter (fun c => c.fromName = nm)).flatMap
              (stepEntries file))⟩) := by
  induction conns generalizing resolved with
  | nil =>
    simp only [List.foldl_nil, List.filter_nil, List.flatMap_nil, List.append_nil]
    cases resolved.find? (fun r => r.name = nm) <;> simp
  | cons conn rest ih =>
    rw [List.foldl_cons]
    by_cases hf : conn.fromName = nm
    · rw [List.filter_cons_of_pos (by simp [hf])]
      subst hf
      cases hfind : file.components.find? (fun c => c.name = conn.toName) with
      | none =>
        rw [resolveStep_of_none resolved hfind, ih]
        simp only [List.flatMap_cons, stepEntries_of_none hfind, List.nil_append]
      | some target =>
        rw [resolveStep_of_some resolved hfind, ih, find?_inject_self]
        simp only [List.flatMap_cons, stepEntries_of_some hfind]
        cases resolved.find? (fun r => r.name = conn.fromName) with
        | none => simp
        | some r => simp [List.append_assoc]
    · rw [List.filter_cons_of_neg (by simp [hf])]
      cases hfind : file.components.find? (fun c => c.name = conn.toName) with
      | none =>
        rw [resolveStep_of_none resolved hfind, ih]
      | some target =>
        rw [resolveStep_of_some resolved hfind, ih,
          find?_inject_other _ _ _ _ (fun h => hf h.symm)]

theorem connectionEntries_eq (conn : ConnectionDecl) (target : ComponentDecl) :
    connectionEntries conn target
      = (toUppercase conn.toName ++ "_HOST", conn.toName) ::
        (match target.port with
         | some p => [(toUppercase conn.toName ++ "_PORT", toString p)]
         | none => []) := by
  unfold connectionEntries
  cases target.port with
  | none => simp [String.isEmpty]
  | some p => simp [natToString_not_isEmpty p]

/-- C1: in a validated composition whose connections from component A are
exactly one connection A → B, the resolved record for A carries A's own
environment (in `BTreeMap` iteration order) followed by the appended pair
`<uppercase(B)>_HOST = B`, and additionally `<uppercase(B)>_PORT =
decimal(P)` exactly when B declares a port P; every pre-existing entry of A
is retained verbatim as a prefix, never overwritten. -/
theorem C1_resolver_appends_host_port (file : CompositionFile)
    (A B : ComponentDecl) (hval : validate file = .ok ())
    (hA : A ∈ file.components) (hB : B ∈ file.components)
    (hconn : file.connections.filter (fun c => c.fromName = A.name)
      = [⟨A.name, B.name⟩]) :
    ∃ res, resolve_connections file = .ok res ∧
      res.find? (fun r => r.name = A.name)
        = some ⟨A.name, A.env ++
            ((toUppercase B.name ++ "_HOST", B.name) ::
              (match B.port with
               | some p => [(toUppercase B.name ++ "_PORT", toString p)]
               | none => []))⟩ := by
  have hnd := validate_ok_nodup file hval
  refine ⟨_, rfl, ?_⟩
  rw [foldl_find?_env, hconn]
  have hinit : (file.components.map
      (fun c => ResolvedComponent.mk c.name c.env)).find?
        (fun r => r.name = A.name) = some ⟨A.name, A.env⟩ := by
    rw [List.find?_map]
    have hcomp : ((fun r : ResolvedComponent => decide (r.name = A.name)) ∘
        (fun c : ComponentDecl => ResolvedComponent.mk c.name c.env))
          = fun c : ComponentDecl => decide (c.name = A.name) := rfl
    rw [hcomp, find?_name_unique _ _ hA hnd]
    rfl
  rw [hinit]
  have hstep : stepEntries file ⟨A.name, B.name⟩ = connectionEntries ⟨A.name, B.name⟩ B := by
    apply stepEntries_of_some
    exact find?_name_unique _ _ hB hnd
  simp only [Option.map_some, List.flatMap_cons, List.flatMap_nil,
    List.append_nil, hstep, connectionEntries_eq]
  rfl




/-- C1 witness: the theorem applied to the concrete composition `c1File`,
with every hypothesis discharged. -/
theorem C1_resolver_appends_host_port_witness :
    (validate c1File = .ok () ∧ c1Web ∈ c1File.components ∧
      c1Db ∈ c1File.components ∧
      c1File.connections.filter (fun c => c.fromName = c1Web.name)
        = [⟨c1Web.name, c1Db.name⟩]) ∧
    (∃ res, resolve_connections c1File = .ok res ∧
      res.find? (fun r => r.name = c1Web.name)
        = some ⟨c1Web.name, c1Web.env ++
            ((toUppercase c1Db.name ++ "_HOST", c1Db.name) ::
              (match c1Db.port with
               | some p => [(toUppercase c1Db.name ++ "_PORT", toString p)]
               | none => []))⟩) :=
  ⟨⟨by decide, by decide, by decide, by decide⟩,
   C1_resolver_appends_host_port c1File c1Web c1Db (by decide) (by decide)
     (by decide) (by decide)⟩

theorem decode_encode_entry (e : StateEntry)
    (hpid : ∀ p ∈ e.pid, p < 4294967296) :
    decodeStateEntry (encodeStateEntry e) = .ok e := by
  obtain ⟨id, name, st, pid, im, rp, lp, ca⟩ := e
  have hp : ∀ p ∈ pid, p < 4294967296 := hpid
  cases st <;> cases pid <;> cases rp <;> cases lp <;>
    simp_all [encodeStateEntry, decodeStateEntry, getField, encodeContainerState,
      decodeContainerState, encodeOpt, decodeStr, decodeOptStr, decodeOptU32,
      List.find?, bind, Except.bind]

theorem decode_encode_entries (entries : List StateEntry)
    (hpid : ∀ e ∈ entries, ∀ p ∈ e.pid, p < 4294967296) :
    decodeEntries (entries.map encodeStateEntry) = .ok entries := by
  induction entries with
  | nil => rfl
  | cons e rest ih =>
    have h1 := decode_encode_entry e (hpid e (List.mem_cons_self _ _))
    have h2 := ih (fun e2 he2 => hpid e2 (List.mem_cons_of_mem _ he2))
    simp only [List.map_cons, decodeEntries, h1, h2, bind, Except.bind]

/-- C5: state persistence round-trips — for every well-formed state file
value (each recorded pid fits in `u32`, as the Rust field type `Option<u32>`
guarantees), saving with `save_state` and loading back with `load_state`
yields the same state: the same container entries with the same id, name,
state, pid, image, rootfs path, log path and creation timestamp, in the
same order. -/
theorem C5_state_roundtrip (s : StateFile)
    (hpid : ∀ e ∈ s.containers, ∀ p ∈ e.pid, p < 4294967296) :
    load_state (save_state s) = .ok s := by
  obtain ⟨containers⟩ := s
  unfold load_state save_state decodeStateFile encodeStateFile getField
  simp [List.find?, bind, Except.bind, decode_encode_entries containers hpid]

/-- C5 witness: the round-trip theorem applied to a concrete two-entry
state file. -/
theorem C5_state_roundtrip_witness :
    (∀ e ∈ (StateFile.mk
        [⟨"c1", "web", ContainerState.Running, some 100, "web:1.0", none, none,
          "2026-01-01T00:00:00Z"⟩,
         ⟨"c2", "db", ContainerState.Stopped, none, "postgres:15",
          some "/var/lib/r", some "/var/log/l", "2026-01-01T00:00:00Z"⟩]).containers,
      ∀ p ∈ e.pid, p < 4294967296) ∧
    load_state (save_state (StateFile.mk
        [⟨"c1", "web", ContainerState.Running, some 100, "web:1.0", none, none,
          "2026-01-01T00:00:00Z"⟩,
         ⟨"c2", "db", ContainerState.Stopped, none, "postgres:15",
          some "/var/lib/r", some "/var/log/l", "2026-01-01T00:00:00Z"⟩]))
      = .ok (StateFile.mk
        [⟨"c1", "web", ContainerState.Running, some 100, "web:1.0", none, none,
          "2026-01-01T00:00:00Z"⟩,
         ⟨"c2", "db", ContainerState.Stopped, none, "postgres:15",
          some "/var/lib/r", some "/var/log/l", "2026-01-01T00:00:00Z"⟩]) :=
  ⟨by decide, C5_state_roundtrip _ (by decide)⟩

theorem parseProperty_port_range (n : Int) (comp : ComponentDecl)
    (rest : List Token) :
    parseProperty (Token.identifier "port" :: Token.equals ::
        Token.integer n :: rest) comp
      = if 0 ≤ n ∧ n < 65536
        then .ok ({ comp with port := some n.toNat }, rest)
        else .error (parse_err ("port value out of range: " ++ toString n)) := by
  simp [parseProperty, expectIdentifier, expectToken, expectInteger, bind,
    Except.bind]

theorem parseIntegerList_elem_range (n : Int) (fuel : Nat) (acc : List Nat)
    (rest : List Token) :
    parseIntegerListLoop (fuel + 1) acc (Token.integer n :: rest)
      = if 0 ≤ n ∧ n < 65536
        then parseIntegerListLoop fuel (n.toNat :: acc) (skipOptionalComma rest)
        else .error (parse_err ("port value out of range: " ++ toString n)) := by
  simp [parseIntegerListLoop, expectInteger, bind, Except.bind]

theorem parseHealthcheck_retries_range (n : Int) (fuel : Nat)
    (hc : HealthcheckDecl) (rest : List Token) :
    parseHealthcheckLoop (fuel + 1) hc (Token.identifier "retries" ::
        Token.equals :: Token.integer n :: rest)
      = if 0 ≤ n ∧ n < 4294967296
        then parseHealthcheckLoop fuel { hc with retries := some n.toNat }
          (skipOptionalComma rest)
        else .error (parse_err ("retries value out of range: " ++ toString n)) := by
  simp [parseHealthcheckLoop, expectIdentifier, expectToken, expectInteger, bind,
    Except.bind]

/-- C8: integer literals are range-checked against their field's type — a
`port` value or `ports` element needs the unsigned 16-bit range, a
healthcheck `retries` value the unsigned 32-bit range; an oversized literal
makes the parse (and hence `parse_ctst`) fail with the range error, while
an in-range value is stored unchanged.  Stated at the three checking sites
for every literal value, plus whole-pipeline runs of `parse_ctst` at both
sides of each boundary. -/
theorem C8_integer_range_checks :
    (∀ (n : Int) (comp : ComponentDecl) (rest : List Token),
      parseProperty (Token.identifier "port" :: Token.equals ::
          Token.integer n :: rest) comp
        = if 0 ≤ n ∧ n < 65536
          then .ok ({ comp with port := some n.toNat }, rest)
          else .error (parse_err ("port value out of range: " ++ toString n))) ∧
    (∀ (n : Int) (fuel : Nat) (acc : List Nat) (rest : List Token),
      parseIntegerListLoop (fuel + 1) acc (Token.integer n :: rest)
        = if 0 ≤ n ∧ n < 65536
          then parseIntegerListLoop fuel (n.toNat :: acc) (skipOptionalComma rest)
          else .error (parse_err ("port value out of range: " ++ toString n))) ∧
    (∀ (n : Int) (fuel : Nat) (hc : HealthcheckDecl) (rest : List Token),
      parseHealthcheckLoop (fuel + 1) hc (Token.identifier "retries" ::
          Token.equals :: Token.integer n :: rest)
        = if 0 ≤ n ∧ n < 4294967296
          then parseHealthcheckLoop fuel { hc with retries := some n.toNat }
            (skipOptionalComma rest)
          else .error (parse_err ("retries value out of range: " ++ toString n))) ∧
    parse_ctst "COMPONENT c \x7b image = \"i\" port = 65536 \x7d".data
      = RustOutcome.err (ContainustError.Config "port value out of range: 65536") ∧
    parse_ctst "COMPONENT c \x7b image = \"i\" port = 65535 \x7d".data
      = RustOutcome.ok ⟨[], [{ ComponentDecl.defaultDecl with
          name := "c"
          image := some "i"
          port := some 65535 }], []⟩ ∧
    parse_ctst "COMPONENT c \x7b image = \"i\" ports = [65536] \x7d".data
      = RustOutcome.err (ContainustError.Config "port value out of range: 65536") ∧
    parse_ctst
        "COMPONENT c \x7b image = \"i\" healthcheck = \x7b retries = 4294967296 \x7d \x7d".data
      = RustOutcome.err
          (ContainustError.Config "retries value out of range: 4294967296") ∧
    parse_ctst
        ("COMPONENT c \x7b image = \"i\" ports = [80, 443] " ++
          "healthcheck = \x7b retries = 4294967295 \x7d \x7d").data
      = RustOutcome.ok ⟨[], [{ ComponentDecl.defaultDecl with
          name := "c"
          image := some "i"
          ports := [80, 443]
          healthcheck := some ⟨[], none, none, some 4294967295, none⟩ }], []⟩ :=
  ⟨parseProperty_port_range, parseIntegerList_elem_range,
   parseHealthcheck_retries_range, by decide, by decide, by decide, by decide,
   by decide⟩



theorem kahnGo_perm (edges : List (Nat × Nat)) :
    ∀ (fuel : Nat) (rem l : List Nat), fuel = rem.length →
      kahnGo edges fuel rem = .ok l → List.Perm l rem
  | 0, rem, l, hf, h => by
    cases rem with
    | nil => cases h; exact List.Perm.refl []
    | cons r rest => simp at hf
  | fuel + 1, rem, l, hf, h => by
    cases rem with
    | nil => cases h; exact List.Perm.refl []
    | cons r rest =>
      simp only [kahnGo] at h
      cases hfind : (r :: rest).find? (fun v => !hasIncoming edges (r :: rest) v) with
      | none => simp only [hfind] at h; cases h
      | some v =>
        simp only [hfind] at h
        have hv : v ∈ r :: rest := List.mem_of_find?_eq_some hfind
        cases hrec : kahnGo edges fuel ((r :: rest).erase v) with
        | error e => rw [hrec] at h; cases h
        | ok rest2 =>
          rw [hrec] at h
          cases h
          have hlen : fuel = ((r :: rest).erase v).length := by
            rw [List.length_erase_of_mem hv]
            simp at hf ⊢
            omega
          have ih := kahnGo_perm edges fuel _ _ hlen hrec
          exact (ih.cons v).trans (List.perm_cons_erase hv).symm

theorem kahnGo_respects (edges : List (Nat × Nat)) (e : Nat × Nat)
    (he : e ∈ edges) :
    ∀ (fuel : Nat) (rem l : List Nat), fuel = rem.length →
      e.1 ∈ rem → e.2 ∈ rem →
      kahnGo edges fuel rem = .ok l → l.indexOf e.1 < l.indexOf e.2
  | 0, rem, l, hf, h1, h2, h => by
    cases rem with
    | nil => cases h1
    | cons r rest => simp at hf
  | fuel + 1, rem, l, hf, h1, h2, h => by
    cases rem with
    | nil => cases h1
    | cons r rest =>
      simp only [kahnGo] at h
      cases hfind : (r :: rest).find? (fun v => !hasIncoming edges (r :: rest) v) with
      | none => simp only [hfind] at h; cases h
      | some v =>
        simp only [hfind] at h
        have hv : v ∈ r :: rest := List.mem_of_find?_eq_some hfind
        have hni : hasIncoming edges (r :: rest) v = false := by
          have := List.find?_some hfind
          simpa using this
        have hv2 : v ≠ e.2 := by
          intro hveq
          have : hasIncoming edges (r :: rest) v = true := by
            unfold hasIncoming
            rw [List.any_eq_true]
            refine ⟨e, he, ?_⟩
            simp [hveq, h1]
          rw [hni] at this
          cases this
        cases hrec : kahnGo edges fuel ((r :: rest).erase v) with
        | error e2 => rw [hrec] at h; cases h
        | ok rest2 =>
          rw [hrec] at h
          cases h
          have hlen : fuel = ((r :: rest).erase v).length := by
            rw [List.length_erase_of_mem hv]
            simp at hf ⊢
            omega
          by_cases hv1 : v = e.1
          · subst hv1
            rw [List.indexOf_cons_self, List.indexOf_cons_ne _ hv2]
            omega
          · have h1e : e.1 ∈ (r :: rest).erase v :=
              (List.mem_erase_of_ne (fun hc => hv1 hc.symm)).mpr h1
            have h2e : e.2 ∈ (r :: rest).erase v :=
              (List.mem_erase_of_ne (fun hc => hv2 hc.symm)).mpr h2
            have ih := kahnGo_respects edges e he fuel _ _ hlen h1e h2e hrec
            rw [List.indexOf_cons_ne _ hv1, List.indexOf_cons_ne _ hv2]
            omega

theorem reach_trans_iterate (edges : List (Nat × Nat)) (w : Nat → Nat)
    (hstep : ∀ n, (w (n + 1), w n) ∈ edges) :
    ∀ (k n : Nat), ReachN edges k (w (n + k)) (w n)
  | 0, n => rfl
  | k + 1, n => by
    refine ⟨w (n + k), ?_, reach_trans_iterate edges w hstep k n⟩
    have := hstep (n + k)
    simpa [Nat.add_assoc] using this

theorem stuck_set_has_cycle (edges : List (Nat × Nat)) (S : List Nat)
    (hne : S ≠ []) (hall : ∀ v ∈ S, hasIncoming edges S v = true) :
    HasCycle edges := by
  have hpred : ∀ v ∈ S, ∃ u, u ∈ S ∧ (u, v) ∈ edges := by
    intro v hv
    have h := hall v hv
    unfold hasIncoming at h
    rw [List.any_eq_true] at h
    obtain ⟨ed, hed, hprop⟩ := h
    rw [Bool.and_eq_true, decide_eq_true_eq] at hprop
    refine ⟨ed.1, ?_, ?_⟩
    · have := hprop.2
      simpa using this
    · have h2 := hprop.1
      have : ed = (ed.1, v) := by
        cases ed
        simp at h2 ⊢
        exact h2
      rwa [this] at hed
  obtain ⟨v0, hv0⟩ := List.exists_mem_of_ne_nil S hne
  let f : {v // v ∈ S} → {v // v ∈ S} := fun x =>
    ⟨(hpred x.1 x.2).choose, (hpred x.1 x.2).choose_spec.1⟩
  let w : Nat → {v // v ∈ S} := fun n => f^[n] ⟨v0, hv0⟩
  have hstep : ∀ n, ((w (n + 1)).1, (w n).1) ∈ edges := by
    intro n
    have hiter : w (n + 1) = f (w n) := by
      show f^[n + 1] _ = f (f^[n] _)
      rw [Function.iterate_succ_apply']
    rw [hiter]
    exact (hpred (w n).1 (w n).2).choose_spec.2
  have hmaps : ∀ i ∈ Finset.range (S.length + 1), (w i).1 ∈ S.toFinset := by
    intro i _
    rw [List.mem_toFinset]
    exact (w i).2
  have hcard : S.toFinset.card < (Finset.range (S.length + 1)).card := by
    rw [Finset.card_range]
    exact Nat.lt_succ_of_le S.toFinset_card_le
  obtain ⟨i, hi, j, hj, hij, heq⟩ :=
    Finset.exists_ne_map_eq_of_card_lt_of_maps_to hcard hmaps
  rcases Nat.lt_or_ge i j with hlt | hge
  · refine ⟨(w j).1, j - i - 1, ?_⟩
    have hr := reach_trans_iterate edges (fun n => (w n).1) hstep (j - i) i
    rw [show i + (j - i) = j from by omega] at hr
    rw [show j - i - 1 + 1 = j - i from by omega]
    rw [heq] at hr
    exact hr
  · have hlt2 : j < i := by omega
    refine ⟨(w i).1, i - j - 1, ?_⟩
    have hr := reach_trans_iterate edges (fun n => (w n).1) hstep (i - j) j
    rw [show j + (i - j) = i from by omega] at hr
    rw [show i - j - 1 + 1 = i - j from by omega]
    rw [← heq] at hr
    exact hr

theorem kahnGo_error_stuck (edges : List (Nat × Nat)) :
    ∀ (fuel : Nat) (rem : List Nat) (err : ContainustError),
      fuel = rem.length → kahnGo edges fuel rem = .error err →
      ∃ S : List Nat, S ≠ [] ∧ ∀ v ∈ S, hasIncoming edges S v = true
  | 0, rem, err, hf, h => by
    cases rem with
    | nil => cases h
    | cons r rest => simp at hf
  | fuel + 1, rem, err, hf, h => by
    cases rem with
    | nil => cases h
    | cons r rest =>
      simp only [kahnGo] at h
      cases hfind : (r :: rest).find? (fun v => !hasIncoming edges (r :: rest) v) with
      | none =>
        refine ⟨r :: rest, by simp, ?_⟩
        intro v hv
        have := List.find?_eq_none.mp hfind v hv
        simpa using this
      | some v =>
        simp only [hfind] at h
        have hv : v ∈ r :: rest := List.mem_of_find?_eq_some hfind
        cases hrec : kahnGo edges fuel ((r :: rest).erase v) with
        | ok rest2 => rw [hrec] at h; cases h
        | error e2 =>
          rw [hrec] at h
          have hlen : fuel = ((r :: rest).erase v).length := by
            rw [List.length_erase_of_mem hv]
            simp at hf ⊢
            omega
          exact kahnGo_error_stuck edges fuel _ e2 hlen hrec

theorem kahnGo_error_msg (edges : List (Nat × Nat)) :
    ∀ (fuel : Nat) (rem : List Nat) (err : ContainustError),
      kahnGo edges fuel rem = .error err →
      err = ContainustError.Config "cyclic dependency detected in component graph"
  | 0, rem, err, h => by
    cases rem with
    | nil => cases h
    | cons r rest => cases h
  | fuel + 1, rem, err, h => by
    cases rem with
    | nil => cases h
    | cons r rest =>
      simp only [kahnGo] at h
      cases hfind : (r :: rest).find? (fun v => !hasIncoming edges (r :: rest) v) with
      | none =>
        simp only [hfind] at h
        cases h
        rfl
      | some v =>
        simp only [hfind] at h
        cases hrec : kahnGo edges fuel ((r :: rest).erase v) with
        | ok rest2 => rw [hrec] at h; cases h
        | error e2 =>
          rw [hrec] at h
          cases h
          exact kahnGo_error_msg edges fuel _ _ hrec

theorem reach_indexOf_lt (edges : List (Nat × Nat)) (n : Nat) (l : List Nat)
    (hvalid : ∀ e ∈ edges, e.1 < n ∧ e.2 < n)
    (hok : kahnGo edges (List.range n).length (List.range n) = .ok l) :
    ∀ (k a b : Nat), ReachN edges (k + 1) a b →
      l.indexOf a < l.indexOf b := by
  intro k
  induction k with
  | zero =>
    intro a b h
    obtain ⟨c, hc, hcb⟩ := h
    have hb : c = b := hcb
    subst hb
    exact kahnGo_respects edges (a, c) hc _ _ _ rfl
      (List.mem_range.mpr (hvalid (a, c) hc).1)
      (List.mem_range.mpr (hvalid (a, c) hc).2) hok
  | succ k ih =>
    intro a b h
    obtain ⟨c, hc, hcb⟩ := h
    have h1 : l.indexOf a < l.indexOf c :=
      kahnGo_respects edges (a, c) hc _ _ _ rfl
        (List.mem_range.mpr (hvalid (a, c) hc).1)
        (List.mem_range.mpr (hvalid (a, c) hc).2) hok
    exact h1.trans (ih c b hcb)

theorem filterMap_getElem_range (l : List String) :
    (List.range l.length).filterMap (fun i => l[i]?) = l := by
  induction l with
  | nil => rfl
  | cons a t ih =>
    rw [List.length_cons, List.range_succ_eq_map]
    rw [List.filterMap_cons]
    simp only [List.getElem?_cons_zero]
    rw [List.filterMap_map]
    have hcomp : ((fun i => (a :: t)[i]?) ∘ Nat.succ) = fun i => t[i]? := by
      funext i
      simp [Function.comp]
    rw [hcomp, ih]

/-- C2: `resolve_order` of the empty graph is the empty ordering; on every
acyclic graph (with edges between valid node indices, as `add_dependency`
receives them from `add_component`) it returns an ordering containing every
node exactly once in which every dependency precedes its dependents (each
edge source index comes strictly before its target index); and on every
graph containing a cycle it returns the `Config` error whose message — the
constant below, containing "cyclic" — reports the cycle. -/
theorem C2_resolve_order_invariants :
    DependencyGraph.new.resolve_order = .ok [] ∧
    (∀ g : DependencyGraph,
      (∀ e ∈ g.edges, e.1 < g.nodes.length ∧ e.2 < g.nodes.length) →
      ¬ HasCycle g.edges →
      ∃ idxs, kahn g.edges (List.range g.nodes.length) = .ok idxs ∧
        List.Perm idxs (List.range g.nodes.length) ∧
        (∀ e ∈ g.edges, idxs.indexOf e.1 < idxs.indexOf e.2) ∧
        g.resolve_order = .ok (idxs.filterMap (fun i => g.nodes[i]?)) ∧
        List.Perm (idxs.filterMap (fun i => g.nodes[i]?)) g.nodes) ∧
    (∀ g : DependencyGraph,
      (∀ e ∈ g.edges, e.1 < g.nodes.length ∧ e.2 < g.nodes.length) →
      HasCycle g.edges →
      g.resolve_order = .error (ContainustError.Config
        "cyclic dependency detected in component graph")) ∧
    List.IsInfix "cyclic".data
      "cyclic dependency detected in component graph".data := by
  refine ⟨by decide, ?_, ?_, by decide⟩
  · intro g hvalid hacyc
    cases hk : kahn g.edges (List.range g.nodes.length) with
    | error e =>
      exfalso
      obtain ⟨S, hSne, hSall⟩ := kahnGo_error_stuck g.edges _ _ e rfl hk
      exact hacyc (stuck_set_has_cycle g.edges S hSne hSall)
    | ok idxs =>
      have hperm := kahnGo_perm g.edges _ _ _ rfl hk
      refine ⟨idxs, rfl, hperm, ?_, ?_, ?_⟩
      · intro e he
        exact kahnGo_respects g.edges e he _ _ _ rfl
          (List.mem_range.mpr (hvalid e he).1)
          (List.mem_range.mpr (hvalid e he).2) hk
      · unfold DependencyGraph.resolve_order
        have he : kahn g.edges (List.range g.nodes.length) = Except.ok idxs := hk
        rw [he]
      · have h1 := hperm.filterMap (fun i => g.nodes[i]?)
        rw [filterMap_getElem_range] at h1
        exact h1
  · intro g hvalid hcyc
    cases hk : kahn g.edges (List.range g.nodes.length) with
    | ok idxs =>
      exfalso
      obtain ⟨v, k, hreach⟩ := hcyc
      exact absurd (reach_indexOf_lt g.edges g.nodes.length idxs hvalid hk
        k v v hreach) (lt_irrefl _)
    | error e =>
      have hmsg := kahnGo_error_msg g.edges _ _ e hk
      unfold DependencyGraph.resolve_order
      have he : kahn g.edges (List.range g.nodes.length) = Except.error e := hk
      rw [he, hmsg]

/-- C2 witness: the acyclic part applied to a concrete two-node edgeless
graph and the cyclic part applied to a concrete two-node cycle. -/
theorem C2_resolve_order_invariants_witness :
    ((∀ e ∈ (DependencyGraph.mk ["a", "b"] []).edges,
        e.1 < 2 ∧ e.2 < 2) ∧ ¬ HasCycle ([] : List (Nat × Nat)) ∧
      (∀ e ∈ (DependencyGraph.mk ["a", "b"] [(0, 1), (1, 0)]).edges,
        e.1 < 2 ∧ e.2 < 2) ∧ HasCycle [(0, 1), (1, 0)]) ∧
    (∃ idxs, kahn ([] : List (Nat × Nat)) (List.range 2) = .ok idxs ∧
      List.Perm idxs (List.range 2) ∧
      (∀ e ∈ (DependencyGraph.mk ["a", "b"] []).edges,
        idxs.indexOf e.1 < idxs.indexOf e.2) ∧
      (DependencyGraph.mk ["a", "b"] []).resolve_order
        = .ok (idxs.filterMap (fun i => (["a", "b"] : List String)[i]?)) ∧
      List.Perm (idxs.filterMap (fun i => (["a", "b"] : List String)[i]?))
        ["a", "b"]) ∧
    (DependencyGraph.mk ["a", "b"] [(0, 1), (1, 0)]).resolve_order
      = .error (ContainustError.Config
          "cyclic dependency detected in component graph") := by
  have hnocyc : ¬ HasCycle ([] : List (Nat × Nat)) := by
    rintro ⟨v, k, c, hc, -⟩
    cases hc
  have hcyc : HasCycle [(0, 1), (1, 0)] := ⟨0, 1, 1, by decide, 0, by decide, rfl⟩
  refine ⟨⟨by decide, hnocyc, by decide, hcyc⟩, ?_, ?_⟩
  · exact C2_resolve_order_invariants.2.1 (DependencyGraph.mk ["a", "b"] [])
      (by decide) hnocyc
  · exact C2_resolve_order_invariants.2.2.1
      (DependencyGraph.mk ["a", "b"] [(0, 1), (1, 0)]) (by decide) hcyc


theorem write_entry_spec (st : CpioWriterState) (name : List Nat) (mode : Nat)
    (data : List Nat) :
    write_entry st name mode data
      = ⟨st.out ++ entryChunk st.ino st.pos name mode data,
         (st.ino + 1) % 4294967296,
         st.pos + (entryChunk st.ino st.pos name mode data).length⟩ := by
  simp [write_entry, rawWrite, alignWrite, entryChunk, List.append_assoc]
  omega


theorem writeAll_trailer_out (entries : List CpioEntry) :
    ∀ (st : CpioWriterState),
      (write_trailer (entries.foldl
        (fun st2 e => write_entry st2 e.name e.mode e.data) st)).out
        = st.out ++ chunks st.ino st.pos entries := by
  induction entries with
  | nil =>
    intro st
    rw [List.foldl_nil]
    unfold write_trailer
    rw [write_entry_spec]
    rfl
  | cons e rest ih =>
    intro st
    rw [List.foldl_cons, write_entry_spec]
    rw [ih]
    simp [chunks, List.append_assoc]

theorem buildArchive_eq_chunks (entries : List CpioEntry) :
    buildArchive entries = chunks 300000 0 entries := by
  unfold buildArchive
  rw [writeAll_trailer_out]
  rfl

theorem pad4_add_mul (pos x : Nat) (h : pos % 4 = 0) : pad4 (pos + x) = pad4 x := by
  unfold pad4; omega

theorem pad4_complete (x : Nat) : (x + pad4 x) % 4 = 0 := by
  unfold pad4; omega

theorem toHexUpperGo_length_le : ∀ (fuel n k : Nat), n < 16 ^ k →
    (toHexUpperGo fuel n).length ≤ k := by
  intro fuel
  induction fuel with
  | zero => intro n k _; simp [toHexUpperGo]
  | succ fuel ih =>
    intro n k hk
    unfold toHexUpperGo
    by_cases h0 : n = 0
    · simp [h0]
    · rw [if_neg h0]
      have hk1 : 1 ≤ k := by
        by_contra hc
        interval_cases k
        omega
      have hdiv : n / 16 < 16 ^ (k - 1) := by
        have : n < 16 ^ (k - 1) * 16 := by
          have : 16 ^ (k - 1) * 16 = 16 ^ k := by
            rw [← pow_succ]
            congr 1
            omega
          omega
        omega
      have := ih (n / 16) (k - 1) hdiv
      simp only [List.length_append, List.length_cons, List.length_nil]
      omega

theorem toHexUpper_length_le (n : Nat) (h : n < 4294967296) :
    (toHexUpper n).length ≤ 8 := by
  unfold toHexUpper
  by_cases h0 : n = 0
  · simp [h0]
  · rw [if_neg h0]
    exact toHexUpperGo_length_le n n 8 (by norm_num at h ⊢; omega)

theorem toHexUpper_length_pos (n : Nat) : 1 ≤ (toHexUpper n).length := by
  unfold toHexUpper
  by_cases h0 : n = 0
  · simp [h0]
  · rw [if_neg h0]
    cases n with
    | zero => omega
    | succ m =>
      unfold toHexUpperGo
      rw [if_neg h0]
      simp

theorem toHex8_length (n : Nat) (h : n < 4294967296) : (toHex8 n).length = 8 := by
  have h1 := toHexUpper_length_le n h
  simp [toHex8]
  omega

theorem toHex8_length_ge (n : Nat) : 8 ≤ (toHex8 n).length := by
  simp [toHex8]
  omega

theorem hexChar_facts (r : Nat) (h : r < 16) :
    isHexByte ((if r < 10 then Char.ofNat (48 + r)
      else Char.ofNat (55 + r)).toNat) = true ∧
    hexByteVal ((if r < 10 then Char.ofNat (48 + r)
      else Char.ofNat (55 + r)).toNat) = r := by
  interval_cases r <;> exact ⟨by decide, by decide⟩

theorem toHexUpperGo_all_hex : ∀ (fuel n : Nat) (c : Char),
    c ∈ toHexUpperGo fuel n → isHexByte c.toNat = true := by
  intro fuel
  induction fuel with
  | zero => intro n c hc; simp [toHexUpperGo] at hc
  | succ fuel ih =>
    intro n c hc
    unfold toHexUpperGo at hc
    by_cases h0 : n = 0
    · simp [h0] at hc
    · rw [if_neg h0] at hc
      rcases List.mem_append.mp hc with h1 | h2
      · exact ih _ _ h1
      · have hr : n % 16 < 16 := Nat.mod_lt _ (by norm_num)
        rcases List.mem_singleton.mp h2 with rfl
        exact (hexChar_facts (n % 16) hr).1

theorem toHexUpperGo_foldl : ∀ (fuel n a : Nat), n ≤ fuel →
    ((toHexUpperGo fuel n).map Char.toNat).foldl
        (fun x b => x * 16 + hexByteVal b) a
      = a * 16 ^ (toHexUpperGo fuel n).length + n := by
  intro fuel
  induction fuel with
  | zero =>
    intro n a hn
    have : n = 0 := by omega
    subst this
    simp [toHexUpperGo]
  | succ fuel ih =>
    intro n a hn
    unfold toHexUpperGo
    by_cases h0 : n = 0
    · simp [h0]
    · rw [if_neg h0]
      have hfu : n / 16 ≤ fuel := by
        have := Nat.div_lt_self (Nat.pos_of_ne_zero h0) (by norm_num : 1 < 16)
        omega
      have hr : n % 16 < 16 := Nat.mod_lt _ (by norm_num)
      rw [List.map_append, List.foldl_append]
      rw [ih (n / 16) a hfu]
      simp only [List.map_cons, List.map_nil, List.foldl_cons, List.foldl_nil,
        List.length_append, List.length_cons, List.length_nil]
      rw [(hexChar_facts (n % 16) hr).2]
      rw [pow_succ]
      have := Nat.div_add_mod n 16
      ring_nf
      omega

theorem toHexUpper_all_hex (n : Nat) (c : Char) (hc : c ∈ toHexUpper n) :
    isHexByte c.toNat = true := by
  unfold toHexUpper at hc
  by_cases h0 : n = 0
  · simp [h0] at hc
    subst hc
    decide
  · rw [if_neg h0] at hc
    exact toHexUpperGo_all_hex n n c hc

theorem toHexUpper_foldl (n a : Nat) :
    ((toHexUpper n).map Char.toNat).foldl (fun x b => x * 16 + hexByteVal b) a
      = a * 16 ^ (toHexUpper n).length + n := by
  unfold toHexUpper
  by_cases h0 : n = 0
  · simp [h0, hexByteVal]
  · rw [if_neg h0]
    exact toHexUpperGo_foldl n n a le_rfl

theorem foldl_zeros : ∀ (k : Nat),
    ((List.replicate k 48).foldl (fun x b => x * 16 + hexByteVal b) 0) = 0 := by
  intro k
  induction k with
  | zero => rfl
  | succ k ih =>
    rw [List.replicate_succ, List.foldl_cons]
    simpa [hexByteVal] using ih

theorem toHex8_all_hex (n : Nat) (b : Nat)
    (hb : b ∈ (toHex8 n).map Char.toNat) : isHexByte b = true := by
  simp only [toHex8, List.map_append, List.mem_append, List.map_replicate] at hb
  rcases hb with h1 | h2
  · rcases List.eq_of_mem_replicate h1 with rfl
    decide
  · rcases List.mem_map.mp h2 with ⟨c, hc, rfl⟩
    exact toHexUpper_all_hex n c hc

theorem toHex8_parse (n : Nat) (h : n < 4294967296) :
    parseHexField ((toHex8 n).map Char.toNat) = n := by
  have hall : ((toHex8 n).map Char.toNat).all isHexByte = true :=
    List.all_eq_true.mpr fun b hb => toHex8_all_hex n b hb
  have hne : ((toHex8 n).map Char.toNat).isEmpty = false := by
    have := toHex8_length_ge n
    rw [List.isEmpty_eq_false_iff_exists_mem]
    rcases List.exists_mem_of_length_pos (show 0 < (toHex8 n).length by omega) with ⟨c, hc⟩
    exact ⟨c.toNat, List.mem_map.mpr ⟨c, hc, rfl⟩⟩
  have hhead : ¬ ((toHex8 n).map Char.toNat).head? = some 43 := by
    intro hc
    have h43 : (43 : Nat) ∈ (toHex8 n).map Char.toNat := by
      cases hl : (toHex8 n).map Char.toNat with
      | nil => rw [hl] at hc; simp at hc
      | cons x xs =>
        rw [hl] at hc
        simp at hc
        simp [hc]
    have := toHex8_all_hex n 43 h43
    simp [isHexByte] at this
  have hfold : ((toHex8 n).map Char.toNat).foldl
      (fun x b => x * 16 + hexByteVal b) 0 = n := by
    simp only [toHex8, List.map_append, List.map_replicate, List.foldl_append]
    rw [show ('0').toNat = 48 from rfl, foldl_zeros]
    have := toHexUpper_foldl n 0
    simpa using this
  unfold parseHexField
  rw [if_neg hhead]
  simp [hne, hall, hfold, h]

theorem cpioHeader_length (ino mode fs ns : Nat)
    (h1 : ino < 4294967296) (h2 : mode < 4294967296)
    (h3 : fs < 4294967296) (h4 : ns < 4294967296) :
    (cpioHeader ino mode fs ns).length = 110 := by
  simp [cpioHeader, toHex8_length ino h1, toHex8_length mode h2,
    toHex8_length fs h3, toHex8_length ns h4,
    show (toHex8 0).length = 8 from rfl, show (toHex8 1).length = 8 from rfl]

theorem take_append_len {α : Type} (l1 l2 : List α) (n : Nat)
    (h : l1.length = n) : (l1 ++ l2).take n = l1 := by
  subst h
  exact List.take_left l1 l2

theorem drop_append_len {α : Type} (l1 l2 : List α) (n : Nat)
    (h : l1.length = n) : (l1 ++ l2).drop n = l2 := by
  subst h
  exact List.drop_left l1 l2

theorem next_entry_parts (H nm pd1 d pd2 tl : List Nat) (mode : Nat)
    (hH : H.length = 110)
    (hmag : H.take 6 = "070701".data.map Char.toNat)
    (hmode : parseHexField ((H.drop 14).take 8) = mode)
    (hfs : parseHexField ((H.drop 54).take 8) = d.length)
    (hns : parseHexField ((H.drop 94).take 8) = nm.length)
    (hp1 : pd1.length = pad4 (110 + nm.length))
    (hp2 : pd2.length = pad4 d.length) :
    next_entry (H ++ (nm ++ (pd1 ++ (d ++ (pd2 ++ tl)))))
      = .ok (some (⟨dropTrailingZeros nm, mode, d⟩, tl)) := by
  have h110 : ¬ (H ++ (nm ++ (pd1 ++ (d ++ (pd2 ++ tl))))).length < 110 := by
    simp [hH]
  have htake : (H ++ (nm ++ (pd1 ++ (d ++ (pd2 ++ tl))))).take 110 = H :=
    take_append_len _ _ _ hH
  have hdrop : (H ++ (nm ++ (pd1 ++ (d ++ (pd2 ++ tl))))).drop 110
      = nm ++ (pd1 ++ (d ++ (pd2 ++ tl))) :=
    drop_append_len _ _ _ hH
  unfold next_entry
  rw [if_neg h110, htake, hdrop]
  dsimp only
  rw [hmag, hmode, hfs, hns]
  have hm : ¬ ("070701".data.map Char.toNat ≠ "070701".data.map Char.toNat) := by
    simp
  rw [if_neg hm]
  have hlen1 : ¬ (nm ++ (pd1 ++ (d ++ (pd2 ++ tl)))).length < nm.length := by
    simp
  rw [if_neg hlen1]
  rw [take_append_len nm _ _ rfl, drop_append_len nm _ _ rfl]
  rw [show pad4 (110 + nm.length) = pd1.length from hp1.symm]
  rw [drop_append_len pd1 _ _ rfl]
  have hlen2 : ¬ (d ++ (pd2 ++ tl)).length < d.length := by
    simp
  rw [if_neg hlen2]
  rw [take_append_len d _ _ rfl, drop_append_len d _ _ rfl]
  rw [show pad4 d.length = pd2.length from hp2.symm]
  rw [drop_append_len pd2 _ _ rfl]

theorem drop_skip6 (m l : List Nat) (n : Nat) (h : m.length = 6) :
    (m ++ l).drop (6 + n) = l.drop n := by
  rw [← h, List.drop_append]

theorem drop_skip8 (x l : List Nat) (n : Nat) (h : x.length = 8) :
    (x ++ l).drop (8 + n) = l.drop n := by
  rw [← h, List.drop_append]

set_option maxHeartbeats 1000000 in
theorem next_entry_chunk (ino pos : Nat) (name : List Nat) (mode : Nat)
    (data : List Nat) (tl : List Nat)
    (hpos : pos % 4 = 0) (hmode : mode < 4294967296)
    (hns : name.length + 1 < 4294967296) (hfs : data.length < 4294967296) :
    next_entry (entryChunk ino pos name mode data ++ tl)
      = .ok (some (⟨dropTrailingZeros (name ++ [0]), mode, data⟩, tl)) := by
  have hino : (ino + 1) % 4294967296 < 4294967296 := Nat.mod_lt _ (by norm_num)
  have hnn : (name ++ [0]).length = name.length + 1 := by simp
  have l_m : ("070701".data.map Char.toNat).length = 6 := by decide
  have l_ino : ((toHex8 ((ino + 1) % 4294967296)).map Char.toNat).length = 8 := by
    rw [List.length_map]; exact toHex8_length _ hino
  have l_mode : ((toHex8 mode).map Char.toNat).length = 8 := by
    rw [List.length_map]; exact toHex8_length _ hmode
  have l_fs : ((toHex8 data.length).map Char.toNat).length = 8 := by
    rw [List.length_map]; exact toHex8_length _ hfs
  have l_ns : ((toHex8 (name ++ [0]).length).map Char.toNat).length = 8 := by
    rw [List.length_map]; exact toHex8_length _ (by omega)
  have l_z : ((toHex8 0).map Char.toNat).length = 8 := by decide
  have l_o : ((toHex8 1).map Char.toNat).length = 8 := by decide
  have hmap : (cpioHeader ((ino + 1) % 4294967296) mode data.length
        (name ++ [0]).length).map Char.toNat
      = ("070701".data.map Char.toNat) ++
        (((toHex8 ((ino + 1) % 4294967296)).map Char.toNat) ++
        (((toHex8 mode).map Char.toNat) ++
        (((toHex8 0).map Char.toNat) ++
        (((toHex8 0).map Char.toNat) ++
        (((toHex8 1).map Char.toNat) ++
        (((toHex8 0).map Char.toNat) ++
        (((toHex8 data.length).map Char.toNat) ++
        (((toHex8 0).map Char.toNat) ++
        (((toHex8 0).map Char.toNat) ++
        (((toHex8 0).map Char.toNat) ++
        (((toHex8 0).map Char.toNat) ++
        (((toHex8 (name ++ [0]).length).map Char.toNat) ++
        ((toHex8 0).map Char.toNat))))))))))))) := by
    simp only [cpioHeader, List.map_append, List.append_assoc]
  have hH : ((cpioHeader ((ino + 1) % 4294967296) mode data.length
      (name ++ [0]).length).map Char.toNat).length = 110 := by
    rw [List.length_map]
    exact cpioHeader_length _ _ _ _ hino hmode hfs (by omega)
  have hmag : ((cpioHeader ((ino + 1) % 4294967296) mode data.length
      (name ++ [0]).length).map Char.toNat).take 6
      = "070701".data.map Char.toNat := by
    rw [hmap]; exact take_append_len _ _ _ l_m
  have hfield_mode : (((cpioHeader ((ino + 1) % 4294967296) mode data.length
      (name ++ [0]).length).map Char.toNat).drop 14).take 8
      = (toHex8 mode).map Char.toNat := by
    rw [hmap, show (14 : Nat) = 6 + (8 + 0) from rfl,
      drop_skip6 _ _ _ l_m, drop_skip8 _ _ _ l_ino, List.drop_zero]
    exact take_append_len _ _ _ l_mode
  have hfield_fs : (((cpioHeader ((ino + 1) % 4294967296) mode data.length
      (name ++ [0]).length).map Char.toNat).drop 54).take 8
      = (toHex8 data.length).map Char.toNat := by
    rw [hmap, show (54 : Nat) = 6 + (8 + (8 + (8 + (8 + (8 + (8 + 0)))))) from rfl,
      drop_skip6 _ _ _ l_m, drop_skip8 _ _ _ l_ino, drop_skip8 _ _ _ l_mode,
      drop_skip8 _ _ _ l_z, drop_skip8 _ _ _ l_z, drop_skip8 _ _ _ l_o,
      drop_skip8 _ _ _ l_z, List.drop_zero]
    exact take_append_len _ _ _ l_fs
  have hfield_ns : (((cpioHeader ((ino + 1) % 4294967296) mode data.length
      (name ++ [0]).length).map Char.toNat).drop 94).take 8
      = (toHex8 (name ++ [0]).length).map Char.toNat := by
    rw [hmap, show (94 : Nat)
        = 6 + (8 + (8 + (8 + (8 + (8 + (8 + (8 + (8 + (8 + (8 + (8 + 0))))))))))) from rfl,
      drop_skip6 _ _ _ l_m, drop_skip8 _ _ _ l_ino, drop_skip8 _ _ _ l_mode,
      drop_skip8 _ _ _ l_z, drop_skip8 _ _ _ l_z, drop_skip8 _ _ _ l_o,
      drop_skip8 _ _ _ l_z, drop_skip8 _ _ _ l_fs, drop_skip8 _ _ _ l_z,
      drop_skip8 _ _ _ l_z, drop_skip8 _ _ _ l_z, drop_skip8 _ _ _ l_z,
      List.drop_zero]
    exact take_append_len _ _ _ l_ns
  simp only [entryChunk]
  generalize hgen : (cpioHeader ((ino + 1) % 4294967296) mode data.length
    (name ++ [0]).length).map Char.toNat = H at hH hmag hfield_mode hfield_fs hfield_ns ⊢
  rw [hH]
  simp only [List.append_assoc]
  have hmain := next_entry_parts H (name ++ [0])
    (List.replicate (pad4 (pos + 110 + (name ++ [0]).length)) 0) data
    (List.replicate (pad4 (pos + 110 + (name ++ [0]).length +
      pad4 (pos + 110 + (name ++ [0]).length) + data.length)) 0) tl mode hH hmag
    (by rw [hfield_mode]; exact toHex8_parse _ hmode)
    (by rw [hfield_fs]; exact toHex8_parse _ hfs)
    (by rw [hfield_ns, toHex8_parse _ (by omega), hnn])
    (by simp only [List.length_replicate]
        unfold pad4
        omega)
    (by simp only [List.length_replicate]
        unfold pad4
        omega)
  simpa [List.append_assoc] using hmain

theorem entryChunk_pos (ino pos : Nat) (name : List Nat) (mode : Nat)
    (data : List Nat) (hpos : pos % 4 = 0) :
    (pos + (entryChunk ino pos name mode data).length) % 4 = 0 := by
  simp only [entryChunk, List.length_append, List.length_replicate]
  unfold pad4
  omega

theorem dropTrailingZeros_append_zero (l : List Nat) :
    dropTrailingZeros (l ++ [0]) = dropTrailingZeros l := by
  simp [dropTrailingZeros, List.dropWhile]

theorem readEntries_nil (fuel : Nat) : readEntries fuel [] = .ok [] := by
  cases fuel with
  | zero => rfl
  | succ fuel => rfl

theorem entryChunk_length_ge (ino pos : Nat) (name : List Nat) (mode : Nat)
    (data : List Nat) : 110 ≤ (entryChunk ino pos name mode data).length := by
  have h1 := toHex8_length_ge ((ino + 1) % 4294967296)
  have h2 := toHex8_length_ge mode
  have h3 := toHex8_length_ge data.length
  have h4 := toHex8_length_ge (name.length + 1)
  have h5 := toHex8_length_ge 0
  have h6 := toHex8_length_ge 1
  simp only [entryChunk, cpioHeader, List.length_append, List.length_map,
    List.length_replicate, List.length_cons, List.length_nil, Nat.zero_add]
  omega

theorem chunks_length_ge (entries : List CpioEntry) :
    ∀ (ino pos : Nat), entries.length + 1 ≤ (chunks ino pos entries).length := by
  induction entries with
  | nil =>
    intro ino pos
    have := entryChunk_length_ge ino pos trailerName 0 []
    simp only [chunks, List.length_nil]
    omega
  | cons e rest ih =>
    intro ino pos
    have h1 := entryChunk_length_ge ino pos e.name e.mode e.data
    have h2 := ih ((ino + 1) % 4294967296)
      (pos + (entryChunk ino pos e.name e.mode e.data).length)
    simp only [chunks, List.length_append, List.length_cons]
    omega



theorem readEntries_chunks (entries : List CpioEntry) :
    ∀ (ino pos fuel : Nat), pos % 4 = 0 → (∀ e ∈ entries, GoodEntry e) →
      entries.length + 1 ≤ fuel →
      readEntries fuel (chunks ino pos entries)
        = .ok (entries ++ [⟨trailerName, 0, []⟩]) := by
  induction entries with
  | nil =>
    intro ino pos fuel hpos _ hf
    cases fuel with
    | zero => omega
    | succ fuel =>
      unfold readEntries
      have hc : chunks ino pos [] = entryChunk ino pos trailerName 0 [] ++ [] := by
        simp [chunks]
      rw [hc, next_entry_chunk ino pos trailerName 0 [] [] hpos (by norm_num)
        (by decide) (by decide)]
      dsimp only
      rw [readEntries_nil]
      have ht : dropTrailingZeros (trailerName ++ [0]) = trailerName := by decide
      rw [ht]
      rfl
  | cons e rest ih =>
    intro ino pos fuel hpos hg hf
    cases fuel with
    | zero => simp at hf
    | succ fuel =>
      have hge : GoodEntry e := hg e (List.mem_cons_self _ _)
      unfold readEntries
      rw [show chunks ino pos (e :: rest)
          = entryChunk ino pos e.name e.mode e.data ++
            chunks ((ino + 1) % 4294967296)
              (pos + (entryChunk ino pos e.name e.mode e.data).length) rest
        from rfl]
      rw [next_entry_chunk ino pos e.name e.mode e.data _ hpos hge.2.1
        hge.2.2.1 hge.2.2.2]
      dsimp only
      rw [dropTrailingZeros_append_zero, hge.1]
      rw [ih ((ino + 1) % 4294967296)
        (pos + (entryChunk ino pos e.name e.mode e.data).length) fuel
        (entryChunk_pos ino pos e.name e.mode e.data hpos)
        (fun x hx => hg x (List.mem_cons_of_mem _ hx))
        (by simp at hf ⊢; omega)]
      rfl

set_option maxRecDepth 4000 in
/-- C6 counterexample: the claim promises the round-trip for every finite
sequence of (name, mode, data) entries, but the reader trims every trailing
NUL byte from a name (`trim_end_matches('\0')`), so an entry whose name
itself ends in a NUL byte comes back shortened: writing the single entry
(name `a\0`, mode 0o100755, empty data) and reading the archive back yields
the name `a` instead. -/
theorem C6_counterexample_trailing_nul :
    read_archive (buildArchive [⟨[97, 0], 33261, []⟩])
      = .ok [⟨[97], 33261, []⟩, ⟨trailerName, 0, []⟩] ∧
    ([⟨[97], 33261, []⟩, ⟨trailerName, 0, []⟩] : List CpioEntry)
      ≠ [⟨[97, 0], 33261, []⟩] ++ [⟨trailerName, 0, []⟩] := by
  exact ⟨by rfl, by decide⟩

/-- C6 (amended): for every finite sequence of entries whose names carry no
trailing NUL byte and whose mode, name size and data size fit the 32-bit
header fields (Rust's `&str` names can never contain NUL-terminated
suffixes of interest and the sizes are `u32`-bounded in practice), writing
the entries through the cpio newc writer followed by the trailer and
reading the archive back yields exactly the same (name, mode, data) tuples
in the same order, followed by the trailer entry alone. -/
theorem C6_cpio_roundtrip_of_no_trailing_nul (entries : List CpioEntry)
    (hgood : ∀ e ∈ entries, GoodEntry e) :
    read_archive (buildArchive entries)
      = .ok (entries ++ [⟨trailerName, 0, []⟩]) := by
  rw [buildArchive_eq_chunks]
  unfold read_archive
  exact readEntries_chunks entries 300000 0 (chunks 300000 0 entries).length
    rfl hgood (chunks_length_ge entries 300000 0)

set_option maxRecDepth 4000 in
theorem C6_cpio_roundtrip_witness :
    (∀ e ∈ ([⟨[97], 33261, [104, 105]⟩, ⟨[98, 105, 110], 16877, []⟩] :
        List CpioEntry), GoodEntry e) ∧
    read_archive (buildArchive
        [⟨[97], 33261, [104, 105]⟩, ⟨[98, 105, 110], 16877, []⟩])
      = .ok ([⟨[97], 33261, [104, 105]⟩, ⟨[98, 105, 110], 16877, []⟩] ++
          [⟨trailerName, 0, []⟩]) :=
  ⟨by decide, C6_cpio_roundtrip_of_no_trailing_nul _ (by decide)⟩
